import Mathlib

/-!
Verification development for the clash-verge-rev i18n CLI
(src/src/main.rs): a locale-file auditor with three operations over JSON
documents - a raw-text duplicate top-level-key scan, a missing-key scan
against a base file, and a key-order sort against a base file.

The embedding is byte-level where the source is byte-level (the raw-text
scanner works on the bytes of the file), and document-level where the
source works on parsed maps (the missing-key and sort operations).
Bytes are modelled as Nat; the byte values that matter are written in
decimal (34 is the double quote, 92 the backslash, 58 the colon, 123 and
125 the braces).
-/

namespace I18nAudit

/-! ## The raw-text top-level key scanner (extract_top_level_keys) -/

/-- Byte values the scanner treats as whitespace.  The source applies
char::is_whitespace to `bytes[i] as char`, i.e. to the byte value read as a
Unicode scalar, so besides 0x09-0x0D and space this also accepts 0x85 (NEL)
and 0xA0 (NBSP), which as bytes are UTF-8 continuation bytes. -/
def isRustCharWs (b : Nat) : Bool :=
  b == 9 || b == 10 || b == 11 || b == 12 || b == 13 || b == 32 || b == 133 || b == 160

/-- Advance of both inner string loops of extract_top_level_keys, together
with the raw bytes the loop passes over: on a backslash the next byte is
consumed as well; an unescaped quote ends the string; reaching the end of
the input ends the string without a closing quote.  Returns (raw content
bytes before the closing quote, rest of the input after the closing quote).
The key-reading loop and the skip-string loop of the source advance over
the input identically, so one definition gives both their spans. -/
def strSpan : List Nat → (List Nat × List Nat)
  | [] => ([], [])
  | b :: r =>
    if b == 92 then
      match r with
      | [] => ([92], [])
      | e :: r2 => let p := strSpan r2; (92 :: e :: p.1, p.2)
    else if b == 34 then ([], r)
    else let p := strSpan r; (b :: p.1, p.2)

/-- The escape processing the key-reading loop applies to the raw content:
each backslash is dropped and the byte after it is kept verbatim; a
trailing backslash (no byte after it) contributes nothing. -/
def procEsc : List Nat → List Nat
  | [] => []
  | b :: r =>
    if b == 92 then
      match r with
      | [] => []
      | e :: r2 => e :: procEsc r2
    else b :: procEsc r

/-- The whitespace skip that runs after a depth-1 string, using the
byte-as-char whitespace test. -/
def skipWsScan : List Nat → List Nat
  | [] => []
  | b :: r => if isRustCharWs b then skipWsScan r else b :: r

/-- Outer loop of extract_top_level_keys, producing the raw spans of the
string literals found at brace depth 1 that are followed, after
whitespace, by a colon ("key literal occurrences").  The loop index of the
source becomes recursion over the remaining input; fuel bounds the number
of outer-loop iterations and none is returned only when the fuel runs out
(a separate theorem shows input length + 1 fuel always suffices). -/
def scanSpans : Nat → Int → List Nat → Option (List (List Nat))
  | 0, _, _ => none
  | _ + 1, _, [] => some []
  | fuel + 1, depth, b :: r =>
    if b == 123 then scanSpans fuel (depth + 1) r
    else if b == 125 then scanSpans fuel (depth - 1) r
    else if b == 34 then
      if depth == 1 then
        let p := strSpan r
        let rest := skipWsScan p.2
        match scanSpans fuel depth rest with
        | none => none
        | some ks =>
          match rest with
          | 58 :: _ => some (p.1 :: ks)
          | _ => some ks
      else scanSpans fuel depth (strSpan r).2
    else scanSpans fuel depth r

/-- The raw contents (escapes kept as written) of the top-level key literal
occurrences of the input, in source order. -/
def keyLitOccs (s : List Nat) : List (List Nat) :=
  (scanSpans (s.length + 1) 0 s).getD []

/-- True when the byte is a UTF-8 continuation byte. -/
def isCont (b : Nat) : Bool := 128 ≤ b && b ≤ 191

/-- UTF-8 validity of a byte sequence, as enforced by Rust's
String::from_utf8: shortest-form encodings only, no surrogates, scalar
values at most 0x10FFFF. -/
def isValidUtf8 : List Nat → Bool
  | [] => true
  | b :: r =>
    if b ≤ 127 then isValidUtf8 r
    else if 194 ≤ b && b ≤ 223 then
      match r with
      | c :: r2 => isCont c && isValidUtf8 r2
      | [] => false
    else if b == 224 then
      match r with
      | c1 :: c2 :: r2 => (160 ≤ c1 && c1 ≤ 191) && isCont c2 && isValidUtf8 r2
      | _ => false
    else if (225 ≤ b && b ≤ 236) || b == 238 || b == 239 then
      match r with
      | c1 :: c2 :: r2 => isCont c1 && isCont c2 && isValidUtf8 r2
      | _ => false
    else if b == 237 then
      match r with
      | c1 :: c2 :: r2 => (128 ≤ c1 && c1 ≤ 159) && isCont c2 && isValidUtf8 r2
      | _ => false
    else if b == 240 then
      match r with
      | c1 :: c2 :: c3 :: r2 =>
        (144 ≤ c1 && c1 ≤ 191) && isCont c2 && isCont c3 && isValidUtf8 r2
      | _ => false
    else if 241 ≤ b && b ≤ 243 then
      match r with
      | c1 :: c2 :: c3 :: r2 => isCont c1 && isCont c2 && isCont c3 && isValidUtf8 r2
      | _ => false
    else if b == 244 then
      match r with
      | c1 :: c2 :: c3 :: r2 =>
        (128 ≤ c1 && c1 ≤ 143) && isCont c2 && isCont c3 && isValidUtf8 r2
      | _ => false
    else false

/-- extract_top_level_keys: each key literal occurrence is taken through the
escape processing, and kept only when String::from_utf8 succeeds on the
processed bytes. -/
def extract_top_level_keys (s : List Nat) : List (List Nat) :=
  ((keyLitOccs s).map procEsc).filter isValidUtf8

/-! ## serde_json::from_str, modelled at the byte level

The operations call serde_json::from_str on the file contents.  The file
contents reach from_str as a &str, i.e. as bytes already known to be valid
UTF-8, and the deserializer works byte by byte, so the model stays on byte
lists: JSON structure is ASCII, and bytes at or above 0x80 occur only
inside strings, where from_str takes them verbatim (their UTF-8 validity
was established by the read).  The model covers the strict grammar
serde_json enforces: JSON whitespace, the three literals, the number
grammar together with the NumberOutOfRange rejection of numbers whose
value overflows f64, strings with the eight escapes and \-u hex escapes
with surrogate pairing, arrays and objects without trailing commas, the
recursion limit of 128, and no trailing input after the document. -/

/-- JSON whitespace as accepted by serde_json: space, tab, LF, CR. -/
def isJsonWs (b : Nat) : Bool := b == 32 || b == 9 || b == 10 || b == 13

/-- Skip JSON whitespace. -/
def skipWsJ : List Nat → List Nat
  | [] => []
  | b :: r => if isJsonWs b then skipWsJ r else b :: r

/-- ASCII decimal digit. -/
def isDigit (b : Nat) : Bool := 48 ≤ b && b ≤ 57

/-- Consume a run of digits, returning how many were consumed, their value
as a decimal numeral, and the rest. -/
def spanDigits : List Nat → (Nat × Nat × List Nat)
  | [] => (0, 0, [])
  | b :: r =>
    if isDigit b then
      let p := spanDigits r
      (p.1 + 1, (b - 48) * 10 ^ p.1 + p.2.1, p.2.2)
    else (0, 0, b :: r)

/-- Value of a hex digit byte, if it is one. -/
def hexVal (b : Nat) : Option Nat :=
  if 48 ≤ b && b ≤ 57 then some (b - 48)
  else if 97 ≤ b && b ≤ 102 then some (b - 87)
  else if 65 ≤ b && b ≤ 70 then some (b - 55)
  else none

/-- UTF-8 encoding of a Unicode scalar value. -/
def utf8Encode (c : Nat) : List Nat :=
  if c ≤ 127 then [c]
  else if c ≤ 2047 then [192 + c / 64, 128 + c % 64]
  else if c ≤ 65535 then [224 + c / 4096, 128 + (c / 64) % 64, 128 + c % 64]
  else [240 + c / 262144, 128 + (c / 4096) % 64, 128 + (c / 64) % 64, 128 + c % 64]

/-- State of the string scanner between two bytes: ordinary content, just
after a backslash, inside the four hex digits of a u-escape (digits left,
accumulator), or - after a leading surrogate - expecting the backslash,
the u, and the four hex digits of the required trailing surrogate. -/
inductive StrState where
  | norm
  | esc
  | hex (k acc : Nat)
  | pairSlash (n : Nat)
  | pairU (n : Nat)
  | pairHex (n k acc : Nat)
deriving DecidableEq

/-- Byte for the simple escapes: quote, backslash and slash stand for
themselves; b, f, n, r, t for backspace, form feed, line feed, carriage
return and tab.  none for an invalid escape character (u is handled
separately). -/
def escByte (e : Nat) : Option Nat :=
  if e == 34 || e == 92 || e == 47 then some e
  else if e == 98 then some 8
  else if e == 102 then some 12
  else if e == 110 then some 10
  else if e == 114 then some 13
  else if e == 116 then some 9
  else none

/-- Body of a JSON string after its opening quote, one byte per step,
following serde_json's parse_str/parse_escape/decode_hex_escape:
unescaped control bytes below 0x20 are rejected; the escapes are quote,
backslash, slash, b, f, n, r, t, and u with four hex digits, where a
trailing surrogate alone is an error and a leading surrogate must be
followed by a second u-escape holding a trailing surrogate (the pair is
combined and UTF-8 encoded).  Returns the decoded content bytes and the
input after the closing quote; none on a malformed or unterminated
string. -/
def strBody : StrState → List Nat → Option (List Nat × List Nat)
  | _, [] => none
  | .norm, b :: r =>
    if b == 34 then some ([], r)
    else if b == 92 then strBody .esc r
    else if b < 32 then none
    else (strBody .norm r).map (fun p => (b :: p.1, p.2))
  | .esc, e :: r =>
    if e == 117 then strBody (.hex 4 0) r
    else
      match escByte e with
      | some c => (strBody .norm r).map (fun p => (c :: p.1, p.2))
      | none => none
  | .hex k acc, b :: r =>
    match hexVal b with
    | none => none
    | some d =>
      let acc2 := acc * 16 + d
      if k == 1 then
        if 56320 ≤ acc2 && acc2 ≤ 57343 then none
        else if 55296 ≤ acc2 && acc2 ≤ 56319 then strBody (.pairSlash acc2) r
        else (strBody .norm r).map (fun p => (utf8Encode acc2 ++ p.1, p.2))
      else strBody (.hex (k - 1) acc2) r
  | .pairSlash n, c :: r => if c == 92 then strBody (.pairU n) r else none
  | .pairU n, c :: r => if c == 117 then strBody (.pairHex n 4 0) r else none
  | .pairHex n k acc, b :: r =>
    match hexVal b with
    | none => none
    | some d =>
      let acc2 := acc * 16 + d
      if k == 1 then
        if 56320 ≤ acc2 && acc2 ≤ 57343 then
          (strBody .norm r).map (fun p =>
            (utf8Encode (65536 + (n - 55296) * 1024 + (acc2 - 56320)) ++ p.1, p.2))
        else none
      else strBody (.pairHex n (k - 1) acc2) r

/-- The string body scanner started in the ordinary state. -/
def parseStringBody (s : List Nat) : Option (List Nat × List Nat) :=
  strBody .norm s

/-- Integer part of a JSON number: a single 0, or a nonzero digit followed
by digits.  Returns its value, its digit count, and the rest. -/
def parseIntPart : List Nat → Option (Nat × Nat × List Nat)
  | [] => none
  | b :: r =>
    if b == 48 then some (0, 1, r)
    else if 49 ≤ b && b ≤ 57 then
      let p := spanDigits r
      some ((b - 48) * 10 ^ p.1 + p.2.1, p.1 + 1, p.2.2)
    else none

/-- Optional fraction part: a dot must be followed by at least one digit.
Returns the digit count, the digits as a numeral, and the rest. -/
def parseFracPart (s : List Nat) : Option (Nat × Nat × List Nat) :=
  match s with
  | [] => some (0, 0, [])
  | b :: r =>
    if b == 46 then
      let p := spanDigits r
      if p.1 == 0 then none else some p
    else some (0, 0, b :: r)

/-- Consume the optional sign of an exponent, reporting whether it was a
minus. -/
def expSign : List Nat → (Bool × List Nat)
  | [] => (false, [])
  | c :: t =>
    if c == 45 then (true, t)
    else if c == 43 then (false, t)
    else (false, c :: t)

/-- Optional exponent part: e or E, optional sign, at least one digit.
Returns the signed exponent value and the rest. -/
def parseExpPart (s : List Nat) : Option (Int × List Nat) :=
  match s with
  | [] => some (0, [])
  | b :: r =>
    if b == 101 || b == 69 then
      let q := expSign r
      let p := spanDigits q.2
      if p.1 == 0 then none
      else some (if q.1 then -(p.2.1 : Int) else (p.2.1 : Int), p.2.2)
    else some (0, b :: r)

/-- Skip the optional leading minus of a number. -/
def skipMinus (s : List Nat) : List Nat :=
  match s with
  | [] => []
  | b :: r => if b == 45 then r else b :: r

/-- The smallest magnitude that rounds to infinity in IEEE-754 binary64
under round-to-nearest, ties-to-even: the midpoint 2^1024 - 2^970 between
the largest finite double (2^1024 - 2^971, whose significand is odd, so
the tie rounds away to infinity) and 2^1024. -/
def f64InfThreshold : Nat := 2 ^ 970 * (2 ^ 54 - 1)

/-- Whether the exact decimal value M * 10^E rounds to infinity as an f64,
i.e. reaches f64InfThreshold; serde_json rejects such a number with its
NumberOutOfRange error (its Number type can never hold an infinity), while
a number too small for f64 simply becomes zero and is not an error.  D is
an upper bound on the decimal digit count of M (the caller passes the
counted integer-part and fraction digits, so M < 10^D), used to shortcut
the comparison when the exponent is far out of range: for E + D <= 308 the
value is below 10^308 < threshold, and for E >= 310 a nonzero M gives at
least 10^310 > threshold; in between, 10^E (or 10^-E) is small enough to
compare exactly. -/
def numOverflows (M D : Nat) (E : Int) : Bool :=
  if M == 0 then false
  else if 310 ≤ E then true
  else if E + (D : Int) ≤ 308 then false
  else
    match E with
    | .ofNat e => decide (f64InfThreshold ≤ M * 10 ^ e)
    | .negSucc e => decide (f64InfThreshold * 10 ^ (e + 1) ≤ M)

/-- A JSON number token: optional minus, integer part, optional fraction,
optional exponent.  The digits are assembled into the exact magnitude
(the sign never matters for the range check), and a value that overflows
f64 is rejected as serde_json's NumberOutOfRange error; otherwise the rest
of the input after the token is returned. -/
def parseNumber (s : List Nat) : Option (List Nat) :=
  match parseIntPart (skipMinus s) with
  | none => none
  | some (iv, dg, s2) =>
    match parseFracPart s2 with
    | none => none
    | some (fc, fv, s3) =>
      match parseExpPart s3 with
      | none => none
      | some (ev, s4) =>
        if numOverflows (iv * 10 ^ fc + fv) (dg + fc) (ev - (fc : Int)) then none
        else some s4

/-- Result of a parsing step: success with a payload and the remaining
input, a syntax error, or fuel exhaustion (shown unreachable for the fuel
the entry points pass). -/
inductive PRes (α : Type) where
  | done (a : α) (rest : List Nat)
  | bad
  | spent
deriving DecidableEq

/-- Which production the parsing engine is working on: a full value, the
inside of an array just after its bracket, the members of an array after a
value is required, the inside of an object just after its brace, or the
members of an object. -/
inductive PMode where
  | value
  | arrFirst
  | arrLoop
  | objFirst
  | objLoop
deriving DecidableEq

/-- Consume the expected literal bytes from the front of the input. -/
def dropLit : List Nat → List Nat → Option (List Nat)
  | [], s => some s
  | _ :: _, [] => none
  | c :: cs, b :: r => if b == c then dropLit cs r else none

/-- The serde_json parsing engine over bytes.  depth is the remaining
recursion depth (serde_json starts at 128 and refuses a descent that would
reach 0); the collected list is the keys of the object being parsed in the
obj modes and empty otherwise; nested containers drop their keys.  Arrays
and objects require a value after every comma (no trailing commas). -/
def parseJ : Nat → PMode → Nat → List Nat → PRes (List (List Nat))
  | 0, _, _, _ => .spent
  | fuel + 1, .value, depth, s =>
    match skipWsJ s with
    | [] => .bad
    | b :: r =>
      if b == 110 then
        match dropLit [117, 108, 108] r with
        | some rest => .done [] rest
        | none => .bad
      else if b == 116 then
        match dropLit [114, 117, 101] r with
        | some rest => .done [] rest
        | none => .bad
      else if b == 102 then
        match dropLit [97, 108, 115, 101] r with
        | some rest => .done [] rest
        | none => .bad
      else if b == 34 then
        match parseStringBody r with
        | some p => .done [] p.2
        | none => .bad
      else if b == 123 then
        if depth ≤ 1 then .bad
        else
          match parseJ fuel .objFirst (depth - 1) r with
          | .done _ rest => .done [] rest
          | .bad => .bad
          | .spent => .spent
      else if b == 91 then
        if depth ≤ 1 then .bad
        else
          match parseJ fuel .arrFirst (depth - 1) r with
          | .done _ rest => .done [] rest
          | .bad => .bad
          | .spent => .spent
      else if b == 45 || isDigit b then
        match parseNumber (b :: r) with
        | some rest => .done [] rest
        | none => .bad
      else .bad
  | fuel + 1, .arrFirst, depth, s =>
    match skipWsJ s with
    | [] => parseJ fuel .arrLoop depth s
    | c :: r =>
      if c == 93 then .done [] r
      else parseJ fuel .arrLoop depth s
  | fuel + 1, .arrLoop, depth, s =>
    match parseJ fuel .value depth s with
    | .done _ r =>
      match skipWsJ r with
      | [] => .bad
      | c :: r2 =>
        if c == 44 then parseJ fuel .arrLoop depth r2
        else if c == 93 then .done [] r2
        else .bad
    | .bad => .bad
    | .spent => .spent
  | fuel + 1, .objFirst, depth, s =>
    match skipWsJ s with
    | [] => parseJ fuel .objLoop depth s
    | c :: r =>
      if c == 125 then .done [] r
      else parseJ fuel .objLoop depth s
  | fuel + 1, .objLoop, depth, s =>
    match skipWsJ s with
    | [] => .bad
    | c :: r =>
      if c == 34 then
        match parseStringBody r with
        | none => .bad
        | some (key, r1) =>
          match skipWsJ r1 with
          | [] => .bad
          | c2 :: r2 =>
            if c2 == 58 then
              match parseJ fuel .value depth r2 with
              | .done _ r3 =>
                match skipWsJ r3 with
                | [] => .bad
                | c3 :: r4 =>
                  if c3 == 44 then
                    match parseJ fuel .objLoop depth r4 with
                    | .done ks rest => .done (key :: ks) rest
                    | .bad => .bad
                    | .spent => .spent
                  else if c3 == 125 then .done [key] r4
                  else .bad
              | .bad => .bad
              | .spent => .spent
            else .bad
      else .bad

/-- A non-object document: one value with fuel 3 * length + 6, surrounding
whitespace, and nothing after it. -/
def parseDocVal (s : List Nat) : PRes (Option (List (List Nat))) :=
  match parseJ (3 * s.length + 6) .value 128 s with
  | .done _ rest =>
    match skipWsJ rest with
    | [] => .done none []
    | _ :: _ => .bad
  | .bad => .bad
  | .spent => .spent

/-- serde_json::from_str at the document level: one value with surrounding
whitespace and nothing after it.  Returns the root object's key
occurrences when the root is an object (keys in source order, duplicates
still present), none for it when the document is another value, bad on a
syntax error.  The fuel 3 * length + 6 always suffices, so the engine
never runs dry here (theorem parseDocRoot_ne_spent below). -/
def parseDocRoot (s : List Nat) : PRes (Option (List (List Nat))) :=
  match skipWsJ s with
  | [] => parseDocVal s
  | b :: r =>
    if b == 123 then
      match parseJ (3 * s.length + 6) .objFirst 127 r with
      | .done ks rest =>
        match skipWsJ rest with
        | [] => .done (some ks) []
        | _ :: _ => .bad
      | .bad => .bad
      | .spent => .spent
    else parseDocVal s

/-- Whether serde_json::from_str succeeds on the bytes. -/
def jsonWellFormed (s : List Nat) : Bool :=
  match parseDocRoot s with
  | .done _ _ => true
  | _ => false

/-- Keep the first occurrence of every element. -/
def dedupFirst : List (List Nat) → List (List Nat)
  | [] => []
  | k :: r => k :: (dedupFirst r).filter (fun x => !(x == k))

/-- The key set of the root object of the document, when the document
parses and its root is an object: serde_json's Map holds every key once
(a repeated key replaces the value), so repeated occurrences collapse. -/
def docRootObjKeys (s : List Nat) : Option (List (List Nat)) :=
  match parseDocRoot s with
  | .done (some ks) _ => some (dedupFirst ks)
  | _ => none

/-! ## find_duplicates_in_file: the duplicate count table -/

/-- The duplicate table of find_duplicates_in_file read as a lookup
function: counting the extracted keys (counts.entry(k) += 1 over the
extracted vector) gives every key its number of occurrences, and the
filter keeps the keys occurring more than once.  The HashMap itself has an
unspecified iteration order, so it is modelled by what it maps each key
to. -/
def dupsMapFn (s : List Nat) (k : List Nat) : Option Nat :=
  let n := (extract_top_level_keys s).count k
  if 2 ≤ n then some n else none

/-- Whether the duplicate table of the input is nonempty. -/
def hasDups (s : List Nat) : Bool :=
  (extract_top_level_keys s).any (fun k => 2 ≤ (extract_top_level_keys s).count k)

/-- find_duplicates_in_file, with the file content given as the result of
fs::read_to_string (none models a read failure).  When the duplicate table
is empty the file must additionally parse as JSON; the Ok payload is the
duplicate table read as its lookup function. -/
def find_duplicates_in_file (content : Option (List Nat)) :
    Except Unit (List Nat → Option Nat) :=
  match content with
  | none => .error ()
  | some s =>
    if hasDups s then .ok (dupsMapFn s)
    else if jsonWellFormed s then .ok (dupsMapFn s)
    else .error ()

/-! ## The missing-key scan -/

/-- Denotation of the missing-key computation
base_keys.difference(&keys).cloned().collect::<Vec<_>>(): both key
collections are std HashSets, whose iteration order is unspecified, so the
collected vector is some enumeration, without repetition, of exactly the
base keys absent from the target.  A list satisfies this predicate iff the
run can report it. -/
def IsMissingReport (B T out : List String) : Prop :=
  out.Nodup ∧ (∀ k ∈ out, k ∈ B ∧ k ∉ T) ∧ (∀ k ∈ B, k ∉ T → k ∈ out)

instance (B T out : List String) : Decidable (IsMissingReport B T out) := by
  unfold IsMissingReport; infer_instance

/-- Path::extension() == Some("json") for a plain file name: it ends in
".json" and the dot is not the leading character (a name that is only
".json" has no extension in Rust's reading). -/
def hasJsonExt (name : String) : Bool :=
  (name.data.reverse.take 5 == [('n'), ('o'), ('s'), ('j'), ('.')]) && 5 < name.data.length

/-- One fatal read-to-keys phase of the missing-key scan for the named file
of the directory: the file must exist, read, parse, and have an object
root; the phases that fail do so fatally with exit code 2, collapsed here
into none. -/
def docKeysOf (files : List (String × Option (List Nat))) (name : String) :
    Option (List (List Nat)) :=
  match files.lookup name with
  | none => none
  | some none => none
  | some (some s) => docRootObjKeys s

/-- Whether one target of the directory loop produces a MISSING report:
a read failure, a parse failure or a non-object root only print an error
and move on (no flag is set for them); an object target is flagged when
some en.json key is absent from it. -/
def targetHasMissing (enKeys : List (List Nat)) (content : Option (List Nat)) : Bool :=
  match content with
  | none => false
  | some s =>
    match docRootObjKeys s with
    | none => false
    | some ks => enKeys.any (fun k => !(ks.contains k))

/-- Directory mode of the missing-key scan (-m without -f), over the
directory's files given as (name, read result) with none for an unreadable
file.  The base file named by -b (default en.json, taken here without a
path separator so it resolves inside the directory) is required to exist,
read, parse and have an object root - all fatally - and its keys are then
left unused: the loop reloads the directory's en.json, fatally again, and
compares every .json file other than en.json against en.json's keys.
Per-target failures only print; the exit code is 1 when some target was
flagged MISSING and 0 otherwise.  The optional export of the missing lists
is omitted from the model: it changes neither the comparisons nor the exit
code.  Every listed entry models a regular file. -/
def missingDirRun (baseArg : Option String)
    (files : List (String × Option (List Nat))) : Nat :=
  let baseName := baseArg.getD ("en.json")
  match docKeysOf files baseName with
  | none => 2
  | some _baseKeys =>
    match docKeysOf files ("en.json") with
    | none => 2
    | some enKeys =>
      let anyMissing := files.any (fun f =>
        hasJsonExt f.1 && !(f.1 == ("en.json")) && targetHasMissing enKeys f.2)
      if anyMissing then 1 else 0

/-- The C5 directory: en.json is the object with key a, fr.json and
de.json are objects with key b. -/
def c5Files : List (String × Option (List Nat)) :=
  [(("en.json"), some [123, 34, 97, 34, 58, 49, 125]),
    (("fr.json"), some [123, 34, 98, 34, 58, 49, 125]),
    (("de.json"), some [123, 34, 98, 34, 58, 49, 125])]

/-! ## The key-order sorter

The sorter works on parsed documents: serde_json::Value objects.  The
crate's Cargo.toml is not part of src/, so the behaviour of
serde_json::Map's key order is modelled from the spec. -/

/-- First index satisfying the predicate. -/
def findIdxA {α : Type} (p : α → Bool) : List α → Option Nat
  | [] => none
  | a :: r => if p a then some 0 else (findIdxA p r).map (· + 1)

/-- Modelled from the spec: the crate's Cargo.toml (and with it serde_json's
feature selection) is missing from src/.  The spec's data model fixes "the
ordered sequence of top-level keys from a base document, as they appear in
source text (not re-sorted)", which is serde_json's preserve_order
feature: Map is an insertion-ordered IndexMap.  Under preserve_order,
Map::remove is IndexMap's swap_remove: the removed slot is filled with the
map's last entry and the map shrinks by one.  Values are never inspected,
so the map is a list of (key, value) pairs over an arbitrary value type. -/
def swapRemove {V : Type} (k : String) (m : List (String × V)) :
    Option V × List (String × V) :=
  match findIdxA (fun p => p.1 == k) m with
  | none => (none, m)
  | some i =>
    match m.get? i, m.getLast? with
    | some pv, some last => (some pv.2, (m.set i last).dropLast)
    | _, _ => (none, m)

/-- The sort loop over the base keys: for each base key present in the
target it moves the entry (key and unchanged value) to the output in base
order, removing it from the target map by swap_remove; base keys absent
from the target are skipped.  Returns (output so far, remaining target
entries). -/
def sortGo {V : Type} : List String → List (String × V) →
    (List (String × V) × List (String × V))
  | [], t => ([], t)
  | k :: ks, t =>
    match swapRemove k t with
    | (some v, t2) => let p := sortGo ks t2; ((k, v) :: p.1, p.2)
    | (none, _) => sortGo ks t

/-- The sorted document: the entries found for base keys, in base order,
followed by whatever remains of the target map after the removals, in the
map's then-current order. -/
def sortTarget {V : Type} (baseKeys : List String) (t : List (String × V)) :
    List (String × V) :=
  (sortGo baseKeys t).1 ++ (sortGo baseKeys t).2

/-- Byte-wise lexicographic comparison of key strings (the spec's
"ascending lexicographic order"). -/
def keyLtL : List Char → List Char → Bool
  | [], [] => false
  | [], _ :: _ => true
  | _ :: _, [] => false
  | c :: r, d :: t =>
    if c.toNat < d.toNat then true
    else if d.toNat < c.toNat then false
    else keyLtL r t

/-- Lexicographic order on keys. -/
def keyLt (a b : String) : Bool := keyLtL a.data b.data

/-- Insertion into a key-sorted list. -/
def insertByKey {V : Type} (p : String × V) : List (String × V) → List (String × V)
  | [] => [p]
  | q :: r => if keyLt p.1 q.1 then p :: q :: r else q :: insertByKey p r

/-- Insertion sort of entries by key, ascending. -/
def sortByKeyLex {V : Type} : List (String × V) → List (String × V)
  | [] => []
  | p :: r => insertByKey p (sortByKeyLex r)

/-- The first entry whose key is k. -/
def findEntry {V : Type} (k : String) (t : List (String × V)) : Option (String × V) :=
  t.find? (fun p => p.1 == k)

/-- The sort contract as the spec words it: target keys present in the
base first, in base order, then the target keys absent from the base in
ascending lexicographic order, values unchanged. -/
def sortTargetSpec {V : Type} (baseKeys : List String) (t : List (String × V)) :
    List (String × V) :=
  baseKeys.filterMap (fun k => findEntry k t) ++
    sortByKeyLex (t.filter (fun p => !(baseKeys.contains p.1)))

/-! ## Resolution of the --base argument -/

/-- Whether the --base argument contains a path separator in the sense of
the source's test: a slash or a backslash character. -/
def hasSepChar (b : String) : Bool :=
  b.data.any (fun c => c == ('/') || c == ('\\'))

/-- Path::parent() of a relative POSIX-style path followed by
unwrap_or("."): everything before the last slash; a bare file name gives
the empty path (so joining resolves in the current directory); the empty
path, having no parent, gives ".".  Modelled for the plain relative paths
the claims are about. -/
def parentOr (f : String) : String :=
  if f.data.all (fun c => !(c == ('/'))) then
    if f.length == 0 then (".") else ("")
  else
    String.mk ((f.data.reverse.dropWhile (fun c => !(c == ('/')))).drop 1).reverse

/-- Path::join for a right side without separators: the empty left side
yields the right side alone. -/
def joinPath (a b : String) : String :=
  if a.length == 0 then b else a ++ ("/") ++ b

/-- Resolution of the base file path performed by both the missing-key and
the sort operation: an argument with a separator is used as given;
otherwise, when -f FILE is present the base name is joined to FILE's
parent directory, and only without -f is it joined to the working
directory. -/
def resolveBasePath (baseArg : Option String) (fileArg : Option String)
    (dir : String) : String :=
  let b := baseArg.getD ("en.json")
  if hasSepChar b then b
  else
    match fileArg with
    | some f => joinPath (parentOr f) b
    | none => joinPath dir b

end I18nAudit

namespace I18nAudit

-- evaluation checks: the executable embedding on small concrete inputs
example : keyLitOccs [123, 34, 97, 34, 58, 49, 125] = [[97]] := by decide
example :
    extract_top_level_keys [123, 34, 97, 34, 58, 49, 44, 34, 97, 34, 58, 50, 125] =
      [[97], [97]] := by decide
example : dupsMapFn [123, 34, 97, 34, 58, 49, 44, 34, 97, 34, 58, 50, 125] [97] = some 2 := by
  decide
example : isValidUtf8 [255] = false := by decide
example : procEsc [97, 92, 98] = [97, 98] := by decide

-- parser sanity: {"a":1} ; {"a":1,} ; [1,2] ; 01 ; "\ud800" alone ; nested
example : jsonWellFormed [123, 34, 97, 34, 58, 49, 125] = true := by decide
example : jsonWellFormed [123, 34, 97, 34, 58, 49, 44, 125] = false := by decide
example : jsonWellFormed [91, 49, 44, 50, 93] = true := by decide
example : jsonWellFormed [48, 49] = false := by decide
example : jsonWellFormed [34, 92, 117, 100, 56, 48, 48, 34] = false := by decide
example : jsonWellFormed [34, 92, 117, 48, 48, 54, 49, 34] = true := by decide

-- number range: 1e308 fits f64; 1e309, {"a":1e999} and -1e999 overflow to
-- infinity and are NumberOutOfRange errors; 1e-999 underflows to zero, ok
set_option maxRecDepth 8192 in
example : jsonWellFormed [49, 101, 51, 48, 56] = true := by decide
set_option maxRecDepth 8192 in
example : jsonWellFormed [49, 101, 51, 48, 57] = false := by decide
example : jsonWellFormed [123, 34, 97, 34, 58, 49, 101, 57, 57, 57, 125] = false := by decide
example : jsonWellFormed [45, 49, 101, 57, 57, 57] = false := by decide
example : jsonWellFormed [49, 101, 45, 57, 57, 57] = true := by decide
-- the largest double 1.7976931348623157e308 is accepted, 1.798e308 is not
set_option maxRecDepth 8192 in
example :
    jsonWellFormed [49, 46, 55, 57, 55, 54, 57, 51, 49, 51, 52, 56, 54, 50, 51, 49, 53, 55,
      101, 51, 48, 56] = true := by decide
set_option maxRecDepth 8192 in
example : jsonWellFormed [49, 46, 55, 57, 56, 101, 51, 48, 56] = false := by decide
-- a duplicate-free object whose number overflows is a parse error, and in
-- the missing-key directory loop such a target is a per-file error that
-- sets no flag: {"a":1} with target {"x":1e999} exits 0
example :
    (find_duplicates_in_file
      (some [123, 34, 97, 34, 58, 49, 101, 57, 57, 57, 125])).isOk = false := by decide
example :
    missingDirRun none
      [(("en.json"), some [123, 34, 97, 34, 58, 49, 125]),
        (("t.json"), some [123, 34, 120, 34, 58, 49, 101, 57, 57, 57, 125])] = 0 := by decide

example :
    docRootObjKeys [123, 34, 97, 34, 58, 91, 123, 125, 93, 44, 34, 98, 34, 58, 50, 125] =
      some [[97], [98]] := by decide
example : docRootObjKeys [91, 93] = none := by decide
example :
    (find_duplicates_in_file (some [123, 34, 97, 34, 58, 49, 125])).isOk = true := by decide

-- swap_remove traces: sorting {c:1,a:2,x:3} by base [a,b,c] gives [a,c,x]
example :
    sortTarget ["a", "b", "c"] [("c", 1), ("a", 2), ("x", 3)] =
      [("a", 2), ("c", 1), ("x", 3)] := by decide
-- with two extras the swap disturbs their order: base [b], target {b,y,z}
example :
    sortTarget ["b"] [("b", 1), ("y", 2), ("z", 3)] =
      [("b", 1), ("z", 3), ("y", 2)] := by decide
example :
    sortTargetSpec ["b"] [("b", 1), ("y", 2), ("z", 3)] =
      [("b", 1), ("y", 2), ("z", 3)] := by decide
example : parentOr ("other/fr.json") = ("other") := by decide
example : parentOr ("fr.json") = ("") := by decide
example :
    resolveBasePath (some ("en.json")) (some ("other/fr.json")) ("locales") =
      ("other/en.json") := by decide
example :
    resolveBasePath (some ("en.json")) none ("locales") = ("locales/en.json") := by decide
example : hasJsonExt ("fr.json") = true := by decide
example : hasJsonExt (".json") = false := by decide
example : IsMissingReport ["a", "b", "c"] ["a", "c"] ["b"] := by decide

/-! ## Lemmas about the scanner -/

theorem strSpan_rest_length_le : (s : List Nat) → (strSpan s).2.length ≤ s.length
  | [] => by simp [strSpan]
  | b :: r => by
    by_cases h92 : b == 92
    · cases r with
      | nil => simp [strSpan, h92]
      | cons e r2 =>
        have ih := strSpan_rest_length_le r2
        rw [strSpan.eq_def]
        simp only [h92, if_pos, List.length_cons]
        omega
    · rw [Bool.not_eq_true] at h92
      by_cases h34 : b == 34
      · rw [strSpan.eq_def]
        simp [h92, h34]
      · rw [Bool.not_eq_true] at h34
        have ih := strSpan_rest_length_le r
        rw [strSpan.eq_def]
        simp only [h92, h34, Bool.false_eq_true, if_neg, List.length_cons,
          not_false_iff]
        omega

theorem skipWsScan_length_le : (s : List Nat) → (skipWsScan s).length ≤ s.length
  | [] => by simp [skipWsScan]
  | b :: r => by
    by_cases h : isRustCharWs b
    · have ih := skipWsScan_length_le r
      rw [skipWsScan.eq_def]
      simp only [h, if_pos, List.length_cons]
      omega
    · rw [Bool.not_eq_true] at h
      rw [skipWsScan.eq_def]
      simp [h]

theorem scanSpans_ne_none :
    ∀ (fuel : Nat) (depth : Int) (s : List Nat), s.length < fuel →
      scanSpans fuel depth s ≠ none := by
  intro fuel
  induction fuel with
  | zero => intro depth s h; exact absurd h (Nat.not_lt_zero _)
  | succ n ih =>
    intro depth s h
    match s with
    | [] => simp [scanSpans]
    | b :: r =>
      have hr : r.length < n := by
        have : r.length + 1 < n + 1 := by simpa using h
        omega
      rw [scanSpans.eq_def]
      by_cases h123 : b == 123
      · simpa [h123] using ih (depth + 1) r hr
      · rw [Bool.not_eq_true] at h123
        by_cases h125 : b == 125
        · simpa [h123, h125] using ih (depth - 1) r hr
        · rw [Bool.not_eq_true] at h125
          by_cases h34 : b == 34
          · by_cases hd : depth == 1
            · have hrest : (skipWsScan (strSpan r).2).length < n :=
                lt_of_le_of_lt
                  (le_trans (skipWsScan_length_le _) (strSpan_rest_length_le _)) hr
              have hne := ih depth (skipWsScan (strSpan r).2) hrest
              simp only [h123, h125, h34, hd, Bool.false_eq_true, if_neg, if_pos,
                not_false_iff]
              obtain ⟨ks, hks⟩ := Option.ne_none_iff_exists'.mp hne
              rw [hks]
              simp only
              split <;> simp
            · rw [Bool.not_eq_true] at hd
              have hrest : ((strSpan r).2).length < n :=
                lt_of_le_of_lt (strSpan_rest_length_le _) hr
              simpa [h123, h125, h34, hd] using ih depth ((strSpan r).2) hrest
          · rw [Bool.not_eq_true] at h34
            simpa [h123, h125, h34] using ih depth r hr

/-! ## Lemmas about the parsing engine: it consumes input and never runs
out of the fuel the entry points pass -/

theorem skipWsJ_length_le : (s : List Nat) → (skipWsJ s).length ≤ s.length
  | [] => by simp [skipWsJ]
  | b :: r => by
    by_cases h : isJsonWs b
    · have ih := skipWsJ_length_le r
      rw [skipWsJ.eq_def]
      simp only [h, if_pos, List.length_cons]
      omega
    · rw [Bool.not_eq_true] at h
      rw [skipWsJ.eq_def]
      simp [h]

theorem spanDigits_length_le : (s : List Nat) → ((spanDigits s).2.2).length ≤ s.length
  | [] => by simp [spanDigits]
  | b :: r => by
    by_cases h : isDigit b
    · have ih := spanDigits_length_le r
      rw [spanDigits.eq_def]
      simp only [h, if_pos, List.length_cons]
      omega
    · rw [Bool.not_eq_true] at h
      rw [spanDigits.eq_def]
      simp [h]

theorem parseIntPart_length_lt (s : List Nat) (p : Nat × Nat × List Nat)
    (h : parseIntPart s = some p) : p.2.2.length < s.length := by
  cases s with
  | nil => simp [parseIntPart] at h
  | cons b t =>
    simp only [parseIntPart] at h
    split at h
    · have h2 := Option.some.inj h
      rw [← h2]
      simp only [List.length_cons]
      omega
    · split at h
      · have h2 := Option.some.inj h
        have h3 := spanDigits_length_le t
        rw [← h2]
        simp only [List.length_cons]
        omega
      · exact absurd h (by simp)

theorem parseFracPart_length_le (s : List Nat) (p : Nat × Nat × List Nat)
    (h : parseFracPart s = some p) : p.2.2.length ≤ s.length := by
  cases s with
  | nil =>
    simp only [parseFracPart] at h
    have h2 := Option.some.inj h
    rw [← h2]
  | cons b t =>
    simp only [parseFracPart] at h
    split at h
    · split at h
      · exact absurd h (by simp)
      · have h2 := Option.some.inj h
        have h3 := spanDigits_length_le t
        rw [← h2]
        simp only [List.length_cons]
        omega
    · have h2 := Option.some.inj h
      rw [← h2]

theorem expSign_length_le (r : List Nat) : ((expSign r).2).length ≤ r.length := by
  cases r with
  | nil => simp [expSign]
  | cons c t =>
    simp only [expSign]
    split
    · simp
    · split <;> simp

theorem parseExpPart_length_le (s : List Nat) (p : Int × List Nat)
    (h : parseExpPart s = some p) : p.2.length ≤ s.length := by
  cases s with
  | nil =>
    simp only [parseExpPart] at h
    have h2 := Option.some.inj h
    rw [← h2]
  | cons b t =>
    simp only [parseExpPart] at h
    split at h
    · split at h
      · exact absurd h (by simp)
      · have h2 := Option.some.inj h
        have h3 := spanDigits_length_le ((expSign t).2)
        have h4 := expSign_length_le t
        rw [← h2]
        simp only [List.length_cons]
        omega
    · have h2 := Option.some.inj h
      rw [← h2]

theorem skipMinus_length_le (s : List Nat) : (skipMinus s).length ≤ s.length := by
  cases s with
  | nil => simp [skipMinus]
  | cons b t =>
    simp only [skipMinus]
    split <;> simp

theorem parseNumber_length_lt (s r : List Nat) (h : parseNumber s = some r) :
    r.length < s.length := by
  unfold parseNumber at h
  cases hip : parseIntPart (skipMinus s) with
  | none =>
    rw [hip] at h
    simp at h
  | some pI =>
    obtain ⟨iv, dg, s2⟩ := pI
    rw [hip] at h
    simp only at h
    cases hfp : parseFracPart s2 with
    | none =>
      rw [hfp] at h
      simp at h
    | some pF =>
      obtain ⟨fc, fv, s3⟩ := pF
      rw [hfp] at h
      simp only at h
      cases hep : parseExpPart s3 with
      | none =>
        rw [hep] at h
        simp at h
      | some pE =>
        obtain ⟨ev, s4⟩ := pE
        rw [hep] at h
        simp only at h
        split at h
        · exact Option.noConfusion h
        · have h0 := Option.some.inj h
          have h1 := parseIntPart_length_lt _ _ hip
          have h2 := parseFracPart_length_le _ _ hfp
          have h3 := parseExpPart_length_le _ _ hep
          have h4 := skipMinus_length_le s
          rw [← h0]
          simp only at h1 h2 h3
          omega

theorem strBody_length_lt :
    (s : List Nat) → ∀ (st : StrState) (p : List Nat × List Nat), strBody st s = some p →
      p.2.length < s.length
  | [] => by
    intro st p h
    rw [show strBody st [] = none from by cases st <;> rfl] at h
    exact absurd h (by simp)
  | b :: r => by
    intro st p h
    cases st <;>
      (simp only [strBody] at h
       iterate 6 (all_goals try (split at h))
       all_goals
         first
         | exact Option.noConfusion h
         | (rw [Option.map_eq_some'] at h
            obtain ⟨q, hq, hpq⟩ := h
            have ih := strBody_length_lt r _ q hq
            rw [← hpq]
            dsimp only
            simp only [List.length_cons]
            omega)
         | (have ih := strBody_length_lt r _ _ h
            simp only [List.length_cons]
            omega)
         | (have h2 := Option.some.inj h
            rw [← h2]
            dsimp only
            simp only [List.length_cons]
            omega))

theorem parseStringBody_length_lt (s : List Nat) (p : List Nat × List Nat)
    (h : parseStringBody s = some p) : p.2.length < s.length :=
  strBody_length_lt s StrState.norm p h

theorem dropLit_length :
    (lit s rest : List Nat) → dropLit lit s = some rest → rest.length + lit.length = s.length
  | [], s, rest => by
    intro h
    have h2 := Option.some.inj h
    rw [← h2]
    simp [dropLit]
  | c :: cs, [], rest => by
    intro h
    exact Option.noConfusion h
  | c :: cs, b :: r, rest => by
    intro h
    simp only [dropLit] at h
    split at h
    · have := dropLit_length cs r rest h
      simp only [List.length_cons]
      omega
    · exact Option.noConfusion h

theorem parseJ_done_length_lt :
    ∀ (fuel : Nat) (mode : PMode) (depth : Nat) (s : List Nat) (ks : List (List Nat))
      (rest : List Nat), parseJ fuel mode depth s = .done ks rest → rest.length < s.length := by
  intro fuel
  induction fuel with
  | zero =>
    intro mode depth s ks rest h
    exact PRes.noConfusion h
  | succ n ih =>
    intro mode depth s ks rest h
    have hswl := skipWsJ_length_le s
    cases mode with
    | value =>
      unfold parseJ at h
      rcases hsw : skipWsJ s with _ | ⟨b, r⟩
      · rw [hsw] at h
        exact PRes.noConfusion h
      · rw [hsw] at h
        rw [hsw] at hswl
        simp only [List.length_cons] at hswl
        simp only at h
        by_cases h110 : b == 110
        · simp only [h110, if_true] at h
          cases hdl : dropLit [117, 108, 108] r with
          | none => rw [hdl] at h; exact PRes.noConfusion h
          | some rest1 =>
            rw [hdl] at h
            simp only at h
            obtain ⟨-, h2⟩ := PRes.done.inj h
            have h4 := congrArg List.length h2
            have h3 := dropLit_length _ _ _ hdl
            simp only [List.length_cons, List.length_nil] at h3 h4
            omega
        · rw [Bool.not_eq_true] at h110
          simp only [h110, Bool.false_eq_true, if_false] at h
          by_cases h116 : b == 116
          · simp only [h116, if_true] at h
            cases hdl : dropLit [114, 117, 101] r with
            | none => rw [hdl] at h; exact PRes.noConfusion h
            | some rest1 =>
              rw [hdl] at h
              simp only at h
              obtain ⟨-, h2⟩ := PRes.done.inj h
              have h4 := congrArg List.length h2
              have h3 := dropLit_length _ _ _ hdl
              simp only [List.length_cons, List.length_nil] at h3 h4
              omega
          · rw [Bool.not_eq_true] at h116
            simp only [h116, Bool.false_eq_true, if_false] at h
            by_cases h102 : b == 102
            · simp only [h102, if_true] at h
              cases hdl : dropLit [97, 108, 115, 101] r with
              | none => rw [hdl] at h; exact PRes.noConfusion h
              | some rest1 =>
                rw [hdl] at h
                simp only at h
                obtain ⟨-, h2⟩ := PRes.done.inj h
                have h4 := congrArg List.length h2
                have h3 := dropLit_length _ _ _ hdl
                simp only [List.length_cons, List.length_nil] at h3 h4
                omega
            · rw [Bool.not_eq_true] at h102
              simp only [h102, Bool.false_eq_true, if_false] at h
              by_cases h34 : b == 34
              · simp only [h34, if_true] at h
                cases hps : parseStringBody r with
                | none => rw [hps] at h; exact PRes.noConfusion h
                | some p =>
                  rw [hps] at h
                  simp only at h
                  obtain ⟨-, h2⟩ := PRes.done.inj h
                  have h4 := congrArg List.length h2
                  have h3 := parseStringBody_length_lt _ _ hps
                  omega
              · rw [Bool.not_eq_true] at h34
                simp only [h34, Bool.false_eq_true, if_false] at h
                by_cases h123 : b == 123
                · simp only [h123, if_true] at h
                  by_cases hdep : depth ≤ 1
                  · rw [if_pos hdep] at h
                    exact PRes.noConfusion h
                  · rw [if_neg hdep] at h
                    cases hpj : parseJ n PMode.objFirst (depth - 1) r with
                    | done ks2 rest2 =>
                      rw [hpj] at h
                      simp only at h
                      obtain ⟨-, h2⟩ := PRes.done.inj h
                      have h4 := congrArg List.length h2
                      have h3 := ih _ _ _ _ _ hpj
                      omega
                    | bad => rw [hpj] at h; exact PRes.noConfusion h
                    | spent => rw [hpj] at h; exact PRes.noConfusion h
                · rw [Bool.not_eq_true] at h123
                  simp only [h123, Bool.false_eq_true, if_false] at h
                  by_cases h91 : b == 91
                  · simp only [h91, if_true] at h
                    by_cases hdep : depth ≤ 1
                    · rw [if_pos hdep] at h
                      exact PRes.noConfusion h
                    · rw [if_neg hdep] at h
                      cases hpj : parseJ n PMode.arrFirst (depth - 1) r with
                      | done ks2 rest2 =>
                        rw [hpj] at h
                        simp only at h
                        obtain ⟨-, h2⟩ := PRes.done.inj h
                        have h4 := congrArg List.length h2
                        have h3 := ih _ _ _ _ _ hpj
                        omega
                      | bad => rw [hpj] at h; exact PRes.noConfusion h
                      | spent => rw [hpj] at h; exact PRes.noConfusion h
                  · rw [Bool.not_eq_true] at h91
                    simp only [h91, Bool.false_eq_true, if_false] at h
                    by_cases hnum : b == 45 || isDigit b
                    · simp only [hnum, if_true] at h
                      cases hpn : parseNumber (b :: r) with
                      | none => rw [hpn] at h; exact PRes.noConfusion h
                      | some rest1 =>
                        rw [hpn] at h
                        simp only at h
                        obtain ⟨-, h2⟩ := PRes.done.inj h
                        have h4 := congrArg List.length h2
                        have h3 := parseNumber_length_lt _ _ hpn
                        simp only [List.length_cons] at h3
                        omega
                    · rw [Bool.not_eq_true] at hnum
                      simp only [hnum, Bool.false_eq_true, if_false] at h
                      exact PRes.noConfusion h
    | arrFirst =>
      unfold parseJ at h
      rcases hsw : skipWsJ s with _ | ⟨c, r⟩
      · rw [hsw] at h
        simp only at h
        exact ih _ _ _ _ _ h
      · rw [hsw] at h
        rw [hsw] at hswl
        simp only [List.length_cons] at hswl
        simp only at h
        by_cases hc : c == 93
        · simp only [hc, if_true] at h
          obtain ⟨-, h2⟩ := PRes.done.inj h
          have h4 := congrArg List.length h2
          omega
        · rw [Bool.not_eq_true] at hc
          simp only [hc, Bool.false_eq_true, if_false] at h
          exact ih _ _ _ _ _ h
    | arrLoop =>
      unfold parseJ at h
      cases hpv : parseJ n PMode.value depth s with
      | bad => rw [hpv] at h; exact PRes.noConfusion h
      | spent => rw [hpv] at h; exact PRes.noConfusion h
      | done a r =>
        rw [hpv] at h
        simp only at h
        have hv := ih _ _ _ _ _ hpv
        have hswr := skipWsJ_length_le r
        rcases hsw2 : skipWsJ r with _ | ⟨c, r2⟩
        · rw [hsw2] at h
          exact PRes.noConfusion h
        · rw [hsw2] at h
          rw [hsw2] at hswr
          simp only [List.length_cons] at hswr
          simp only at h
          by_cases hc : c == 44
          · simp only [hc, if_true] at h
            have h3 := ih _ _ _ _ _ h
            omega
          · rw [Bool.not_eq_true] at hc
            simp only [hc, Bool.false_eq_true, if_false] at h
            by_cases hc2 : c == 93
            · simp only [hc2, if_true] at h
              obtain ⟨-, h2⟩ := PRes.done.inj h
              have h4 := congrArg List.length h2
              omega
            · rw [Bool.not_eq_true] at hc2
              simp only [hc2, Bool.false_eq_true, if_false] at h
              exact PRes.noConfusion h
    | objFirst =>
      unfold parseJ at h
      rcases hsw : skipWsJ s with _ | ⟨c, r⟩
      · rw [hsw] at h
        simp only at h
        exact ih _ _ _ _ _ h
      · rw [hsw] at h
        rw [hsw] at hswl
        simp only [List.length_cons] at hswl
        simp only at h
        by_cases hc : c == 125
        · simp only [hc, if_true] at h
          obtain ⟨-, h2⟩ := PRes.done.inj h
          have h4 := congrArg List.length h2
          omega
        · rw [Bool.not_eq_true] at hc
          simp only [hc, Bool.false_eq_true, if_false] at h
          exact ih _ _ _ _ _ h
    | objLoop =>
      unfold parseJ at h
      rcases hsw : skipWsJ s with _ | ⟨c, r⟩
      · rw [hsw] at h
        exact PRes.noConfusion h
      · rw [hsw] at h
        rw [hsw] at hswl
        simp only [List.length_cons] at hswl
        simp only at h
        by_cases hc : c == 34
        · simp only [hc, if_true] at h
          cases hps : parseStringBody r with
          | none => rw [hps] at h; exact PRes.noConfusion h
          | some kp =>
            obtain ⟨key, r1⟩ := kp
            rw [hps] at h
            simp only at h
            have hs1 := parseStringBody_length_lt _ _ hps
            dsimp only at hs1
            have hswr1 := skipWsJ_length_le r1
            rcases hsw2 : skipWsJ r1 with _ | ⟨c2, r2⟩
            · rw [hsw2] at h
              exact PRes.noConfusion h
            · rw [hsw2] at h
              rw [hsw2] at hswr1
              simp only [List.length_cons] at hswr1
              simp only at h
              by_cases hc2 : c2 == 58
              · simp only [hc2, if_true] at h
                cases hpv : parseJ n PMode.value depth r2 with
                | bad => rw [hpv] at h; exact PRes.noConfusion h
                | spent => rw [hpv] at h; exact PRes.noConfusion h
                | done a r3 =>
                  rw [hpv] at h
                  simp only at h
                  have hv := ih _ _ _ _ _ hpv
                  have hswr3 := skipWsJ_length_le r3
                  rcases hsw3 : skipWsJ r3 with _ | ⟨c3, r4⟩
                  · rw [hsw3] at h
                    exact PRes.noConfusion h
                  · rw [hsw3] at h
                    rw [hsw3] at hswr3
                    simp only [List.length_cons] at hswr3
                    simp only at h
                    by_cases hc3 : c3 == 44
                    · simp only [hc3, if_true] at h
                      cases hpo : parseJ n PMode.objLoop depth r4 with
                      | bad => rw [hpo] at h; exact PRes.noConfusion h
                      | spent => rw [hpo] at h; exact PRes.noConfusion h
                      | done ks2 rest2 =>
                        rw [hpo] at h
                        simp only at h
                        obtain ⟨-, h2⟩ := PRes.done.inj h
                        have h4 := congrArg List.length h2
                        have ho := ih _ _ _ _ _ hpo
                        omega
                    · rw [Bool.not_eq_true] at hc3
                      simp only [hc3, Bool.false_eq_true, if_false] at h
                      by_cases hc4 : c3 == 125
                      · simp only [hc4, if_true] at h
                        obtain ⟨-, h2⟩ := PRes.done.inj h
                        have h4 := congrArg List.length h2
                        omega
                      · rw [Bool.not_eq_true] at hc4
                        simp only [hc4, Bool.false_eq_true, if_false] at h
                        exact PRes.noConfusion h
              · rw [Bool.not_eq_true] at hc2
                simp only [hc2, Bool.false_eq_true, if_false] at h
                exact PRes.noConfusion h
        · rw [Bool.not_eq_true] at hc
          simp only [hc, Bool.false_eq_true, if_false] at h
          exact PRes.noConfusion h

theorem parseJ_not_spent :
    ∀ (fuel : Nat),
      (∀ depth s, 3 * s.length + 1 ≤ fuel → parseJ fuel .value depth s ≠ .spent) ∧
      (∀ depth s, 3 * s.length + 3 ≤ fuel → parseJ fuel .arrFirst depth s ≠ .spent) ∧
      (∀ depth s, 3 * s.length + 2 ≤ fuel → parseJ fuel .arrLoop depth s ≠ .spent) ∧
      (∀ depth s, 3 * s.length + 3 ≤ fuel → parseJ fuel .objFirst depth s ≠ .spent) ∧
      (∀ depth s, 3 * s.length + 2 ≤ fuel → parseJ fuel .objLoop depth s ≠ .spent) := by
  intro fuel
  induction fuel with
  | zero =>
    refine ⟨?_, ?_, ?_, ?_, ?_⟩ <;> (intro depth s hle; exact absurd hle (by omega))
  | succ n ih =>
    obtain ⟨ihv, ihaf, ihal, ihof, ihol⟩ := ih
    refine ⟨?_, ?_, ?_, ?_, ?_⟩
    · intro depth s hle h
      unfold parseJ at h
      have hswl := skipWsJ_length_le s
      rcases hsw : skipWsJ s with _ | ⟨b, r⟩
      · rw [hsw] at h
        exact PRes.noConfusion h
      · rw [hsw] at h
        rw [hsw] at hswl
        simp only [List.length_cons] at hswl
        simp only at h
        by_cases h110 : b == 110
        · simp only [h110, if_true] at h
          cases hdl : dropLit [117, 108, 108] r with
          | none => rw [hdl] at h; exact PRes.noConfusion h
          | some rest1 => rw [hdl] at h; simp only at h; exact PRes.noConfusion h
        · rw [Bool.not_eq_true] at h110
          simp only [h110, Bool.false_eq_true, if_false] at h
          by_cases h116 : b == 116
          · simp only [h116, if_true] at h
            cases hdl : dropLit [114, 117, 101] r with
            | none => rw [hdl] at h; exact PRes.noConfusion h
            | some rest1 => rw [hdl] at h; simp only at h; exact PRes.noConfusion h
          · rw [Bool.not_eq_true] at h116
            simp only [h116, Bool.false_eq_true, if_false] at h
            by_cases h102 : b == 102
            · simp only [h102, if_true] at h
              cases hdl : dropLit [97, 108, 115, 101] r with
              | none => rw [hdl] at h; exact PRes.noConfusion h
              | some rest1 => rw [hdl] at h; simp only at h; exact PRes.noConfusion h
            · rw [Bool.not_eq_true] at h102
              simp only [h102, Bool.false_eq_true, if_false] at h
              by_cases h34 : b == 34
              · simp only [h34, if_true] at h
                cases hps : parseStringBody r with
                | none => rw [hps] at h; exact PRes.noConfusion h
                | some p => rw [hps] at h; simp only at h; exact PRes.noConfusion h
              · rw [Bool.not_eq_true] at h34
                simp only [h34, Bool.false_eq_true, if_false] at h
                by_cases h123 : b == 123
                · simp only [h123, if_true] at h
                  by_cases hdep : depth ≤ 1
                  · rw [if_pos hdep] at h
                    exact PRes.noConfusion h
                  · rw [if_neg hdep] at h
                    cases hpj : parseJ n PMode.objFirst (depth - 1) r with
                    | done ks2 rest2 => rw [hpj] at h; simp only at h; exact PRes.noConfusion h
                    | bad => rw [hpj] at h; exact PRes.noConfusion h
                    | spent => exact ihof (depth - 1) r (by omega) hpj
                · rw [Bool.not_eq_true] at h123
                  simp only [h123, Bool.false_eq_true, if_false] at h
                  by_cases h91 : b == 91
                  · simp only [h91, if_true] at h
                    by_cases hdep : depth ≤ 1
                    · rw [if_pos hdep] at h
                      exact PRes.noConfusion h
                    · rw [if_neg hdep] at h
                      cases hpj : parseJ n PMode.arrFirst (depth - 1) r with
                      | done ks2 rest2 => rw [hpj] at h; simp only at h; exact PRes.noConfusion h
                      | bad => rw [hpj] at h; exact PRes.noConfusion h
                      | spent => exact ihaf (depth - 1) r (by omega) hpj
                  · rw [Bool.not_eq_true] at h91
                    simp only [h91, Bool.false_eq_true, if_false] at h
                    by_cases hnum : b == 45 || isDigit b
                    · simp only [hnum, if_true] at h
                      cases hpn : parseNumber (b :: r) with
                      | none => rw [hpn] at h; exact PRes.noConfusion h
                      | some rest1 => rw [hpn] at h; simp only at h; exact PRes.noConfusion h
                    · rw [Bool.not_eq_true] at hnum
                      simp only [hnum, Bool.false_eq_true, if_false] at h
                      exact PRes.noConfusion h
    · intro depth s hle h
      unfold parseJ at h
      have hswl := skipWsJ_length_le s
      rcases hsw : skipWsJ s with _ | ⟨c, r⟩
      · rw [hsw] at h
        simp only at h
        exact ihal depth s (by omega) h
      · rw [hsw] at h
        rw [hsw] at hswl
        simp only [List.length_cons] at hswl
        simp only at h
        by_cases hc : c == 93
        · simp only [hc, if_true] at h
          exact PRes.noConfusion h
        · rw [Bool.not_eq_true] at hc
          simp only [hc, Bool.false_eq_true, if_false] at h
          exact ihal depth s (by omega) h
    · intro depth s hle h
      unfold parseJ at h
      cases hpv : parseJ n PMode.value depth s with
      | spent => exact ihv depth s (by omega) hpv
      | bad => rw [hpv] at h; exact PRes.noConfusion h
      | done a r =>
        rw [hpv] at h
        simp only at h
        have hv := parseJ_done_length_lt n PMode.value depth s a r hpv
        have hswr := skipWsJ_length_le r
        rcases hsw2 : skipWsJ r with _ | ⟨c, r2⟩
        · rw [hsw2] at h
          exact PRes.noConfusion h
        · rw [hsw2] at h
          rw [hsw2] at hswr
          simp only [List.length_cons] at hswr
          simp only at h
          by_cases hc : c == 44
          · simp only [hc, if_true] at h
            exact ihal depth r2 (by omega) h
          · rw [Bool.not_eq_true] at hc
            simp only [hc, Bool.false_eq_true, if_false] at h
            by_cases hc2 : c == 93
            · simp only [hc2, if_true] at h
              exact PRes.noConfusion h
            · rw [Bool.not_eq_true] at hc2
              simp only [hc2, Bool.false_eq_true, if_false] at h
              exact PRes.noConfusion h
    · intro depth s hle h
      unfold parseJ at h
      have hswl := skipWsJ_length_le s
      rcases hsw : skipWsJ s with _ | ⟨c, r⟩
      · rw [hsw] at h
        simp only at h
        exact ihol depth s (by omega) h
      · rw [hsw] at h
        rw [hsw] at hswl
        simp only [List.length_cons] at hswl
        simp only at h
        by_cases hc : c == 125
        · simp only [hc, if_true] at h
          exact PRes.noConfusion h
        · rw [Bool.not_eq_true] at hc
          simp only [hc, Bool.false_eq_true, if_false] at h
          exact ihol depth s (by omega) h
    · intro depth s hle h
      unfold parseJ at h
      have hswl := skipWsJ_length_le s
      rcases hsw : skipWsJ s with _ | ⟨c, r⟩
      · rw [hsw] at h
        exact PRes.noConfusion h
      · rw [hsw] at h
        rw [hsw] at hswl
        simp only [List.length_cons] at hswl
        simp only at h
        by_cases hc : c == 34
        · simp only [hc, if_true] at h
          cases hps : parseStringBody r with
          | none => rw [hps] at h; exact PRes.noConfusion h
          | some kp =>
            obtain ⟨key, r1⟩ := kp
            rw [hps] at h
            simp only at h
            have hs1 := parseStringBody_length_lt _ _ hps
            dsimp only at hs1
            have hswr1 := skipWsJ_length_le r1
            rcases hsw2 : skipWsJ r1 with _ | ⟨c2, r2⟩
            · rw [hsw2] at h
              exact PRes.noConfusion h
            · rw [hsw2] at h
              rw [hsw2] at hswr1
              simp only [List.length_cons] at hswr1
              simp only at h
              by_cases hc2 : c2 == 58
              · simp only [hc2, if_true] at h
                cases hpv : parseJ n PMode.value depth r2 with
                | spent => exact ihv depth r2 (by omega) hpv
                | bad => rw [hpv] at h; exact PRes.noConfusion h
                | done a r3 =>
                  rw [hpv] at h
                  simp only at h
                  have hv := parseJ_done_length_lt n PMode.value depth r2 a r3 hpv
                  have hswr3 := skipWsJ_length_le r3
                  rcases hsw3 : skipWsJ r3 with _ | ⟨c3, r4⟩
                  · rw [hsw3] at h
                    exact PRes.noConfusion h
                  · rw [hsw3] at h
                    rw [hsw3] at hswr3
                    simp only [List.length_cons] at hswr3
                    simp only at h
                    by_cases hc3 : c3 == 44
                    · simp only [hc3, if_true] at h
                      cases hpo : parseJ n PMode.objLoop depth r4 with
                      | spent => exact ihol depth r4 (by omega) hpo
                      | bad => rw [hpo] at h; exact PRes.noConfusion h
                      | done ks2 rest2 => rw [hpo] at h; simp only at h; exact PRes.noConfusion h
                    · rw [Bool.not_eq_true] at hc3
                      simp only [hc3, Bool.false_eq_true, if_false] at h
                      by_cases hc4 : c3 == 125
                      · simp only [hc4, if_true] at h
                        exact PRes.noConfusion h
                      · rw [Bool.not_eq_true] at hc4
                        simp only [hc4, Bool.false_eq_true, if_false] at h
                        exact PRes.noConfusion h
              · rw [Bool.not_eq_true] at hc2
                simp only [hc2, Bool.false_eq_true, if_false] at h
                exact PRes.noConfusion h
        · rw [Bool.not_eq_true] at hc
          simp only [hc, Bool.false_eq_true, if_false] at h
          exact PRes.noConfusion h

theorem parseDocVal_ne_spent (s : List Nat) : parseDocVal s ≠ .spent := by
  intro h
  unfold parseDocVal at h
  cases hpv : parseJ (3 * s.length + 6) PMode.value 128 s with
  | spent => exact (parseJ_not_spent (3 * s.length + 6)).1 128 s (by omega) hpv
  | bad => rw [hpv] at h; exact PRes.noConfusion h
  | done a r2 =>
    rw [hpv] at h
    simp only at h
    rcases hsw2 : skipWsJ r2 with _ | ⟨c, r3⟩
    · rw [hsw2] at h
      exact PRes.noConfusion h
    · rw [hsw2] at h
      exact PRes.noConfusion h

theorem parseDocRoot_ne_spent (s : List Nat) : parseDocRoot s ≠ .spent := by
  intro h
  unfold parseDocRoot at h
  have hswl := skipWsJ_length_le s
  rcases hsw : skipWsJ s with _ | ⟨b, r⟩
  · rw [hsw] at h
    exact parseDocVal_ne_spent s h
  · rw [hsw] at h
    rw [hsw] at hswl
    simp only [List.length_cons] at hswl
    simp only at h
    by_cases hb : b == 123
    · simp only [hb, if_true] at h
      cases hpj : parseJ (3 * s.length + 6) PMode.objFirst 127 r with
      | spent =>
        exact (parseJ_not_spent (3 * s.length + 6)).2.2.2.1 127 r (by omega) hpj
      | bad => rw [hpj] at h; exact PRes.noConfusion h
      | done ks rest =>
        rw [hpj] at h
        simp only at h
        rcases hsw2 : skipWsJ rest with _ | ⟨c, r3⟩
        · rw [hsw2] at h
          exact PRes.noConfusion h
        · rw [hsw2] at h
          exact PRes.noConfusion h
    · rw [Bool.not_eq_true] at hb
      simp only [hb, Bool.false_eq_true, if_false] at h
      exact parseDocVal_ne_spent s h


theorem jsonWellFormed_false_iff (s : List Nat) :
    jsonWellFormed s = false ↔ parseDocRoot s = .bad := by
  unfold jsonWellFormed
  cases h : parseDocRoot s with
  | done a r => simp
  | bad => simp
  | spent => exact absurd h (parseDocRoot_ne_spent s)

/-! ## Claim theorems: the scanner (C9, C10, C6) -/

/-- C9: the raw-text top-level key extractor terminates on every byte
sequence - including unterminated strings, unbalanced braces and a
trailing backslash - within at most one outer-loop iteration per input
byte: with any fuel beyond the input length the scan completes and
returns a (possibly empty) key-occurrence list, and keyLitOccs (with it
extract_top_level_keys) is the completed scan at fuel length + 1. -/
theorem extract_scan_terminates (s : List Nat) (fuel : Nat) (h : s.length < fuel) :
    (∃ ks, scanSpans fuel 0 s = some ks) ∧
      ∃ ks0, scanSpans (s.length + 1) 0 s = some ks0 ∧ keyLitOccs s = ks0 := by
  constructor
  · cases hsc : scanSpans fuel 0 s with
    | none => exact absurd hsc (scanSpans_ne_none fuel 0 s h)
    | some ks => exact ⟨ks, rfl⟩
  · cases hsc : scanSpans (s.length + 1) 0 s with
    | none => exact absurd hsc (scanSpans_ne_none (s.length + 1) 0 s (by omega))
    | some ks => exact ⟨ks, rfl, by simp [keyLitOccs, hsc]⟩

/-- Witness for C9 at a pathological input: an unterminated string opened
inside an unbalanced brace and ending in a bare backslash. -/
theorem extract_scan_terminates_witness :
    ([123, 34, 97, 98, 92] : List Nat).length < 6 ∧
      ((∃ ks, scanSpans 6 0 [123, 34, 97, 98, 92] = some ks) ∧
        ∃ ks0, scanSpans (([123, 34, 97, 98, 92] : List Nat).length + 1) 0
            [123, 34, 97, 98, 92] = some ks0 ∧
          keyLitOccs [123, 34, 97, 98, 92] = ks0) :=
  ⟨by decide, extract_scan_terminates [123, 34, 97, 98, 92] 6 (by decide)⟩

/-- C10: a key occurrence whose escape-processed content is not valid
UTF-8 is dropped by the String::from_utf8 gate: it never appears in the
extracted key list, and the duplicate table maps it to nothing no matter
how often it occurs. -/
theorem invalid_utf8_key_never_reported (s k : List Nat) (h : isValidUtf8 k = false) :
    k ∉ extract_top_level_keys s ∧ dupsMapFn s k = none := by
  have hmem : k ∉ extract_top_level_keys s := by
    intro hk
    have hv := List.of_mem_filter hk
    rw [h] at hv
    exact absurd hv (by simp)
  refine ⟨hmem, ?_⟩
  have hz : (extract_top_level_keys s).count k = 0 := List.count_eq_zero.mpr hmem
  simp [dupsMapFn, hz]

/-- Witness for C10: the file bytes are the raw text of a two-entry
object whose repeated key is the single byte 0xFF (not valid UTF-8 after
escape processing, and in fact not processed by any escape). -/
theorem invalid_utf8_key_never_reported_witness :
    isValidUtf8 [255] = false ∧
      ([255] ∉ extract_top_level_keys
          [123, 34, 255, 34, 58, 49, 44, 34, 255, 34, 58, 50, 125] ∧
        dupsMapFn [123, 34, 255, 34, 58, 49, 44, 34, 255, 34, 58, 50, 125] [255] = none) :=
  ⟨by decide,
    invalid_utf8_key_never_reported
      [123, 34, 255, 34, 58, 49, 44, 34, 255, 34, 58, 50, 125] [255] (by decide)⟩

/-- C6 counterexample: in the raw text of the object with the two members
"ab": 1 and "a\b": 2 (bytes below), no string literal occurs twice as a
top-level key - the literal ab occurs once and the literal a-backslash-b
occurs once - yet the duplicate table reports the key ab with count 2,
because occurrences are counted after escape processing, which conflates
the two literals.  This refutes "reports exactly the keys whose count
exceeds 1". -/
theorem dup_count_counterexample :
    (keyLitOccs [123, 34, 97, 98, 34, 58, 49, 44, 34, 97, 92, 98, 34, 58, 50, 125]).count
        [97, 98] = 1 ∧
      (keyLitOccs [123, 34, 97, 98, 34, 58, 49, 44, 34, 97, 92, 98, 34, 58, 50, 125]).count
        [97, 92, 98] = 1 ∧
      dupsMapFn [123, 34, 97, 98, 34, 58, 49, 44, 34, 97, 92, 98, 34, 58, 50, 125]
        [97, 98] = some 2 := by decide

/-- C6 (amended): occurrences are identified by their escape-processed
content.  For every valid-UTF-8 key text k, the duplicate table reports k
exactly when more than one top-level key occurrence processes to k, and
then with exactly that number of occurrences. -/
theorem dup_count_by_processed_content (s k : List Nat) (h : isValidUtf8 k = true) :
    dupsMapFn s k =
      (if 2 ≤ ((keyLitOccs s).map procEsc).count k
        then some (((keyLitOccs s).map procEsc).count k) else none) := by
  have hc : (extract_top_level_keys s).count k = ((keyLitOccs s).map procEsc).count k := by
    unfold extract_top_level_keys
    exact List.count_filter h
  simp only [dupsMapFn, hc]

/-- Witness for C6 (amended) at the raw text of an object repeating the
key a twice. -/
theorem dup_count_by_processed_content_witness :
    isValidUtf8 [97] = true ∧
      dupsMapFn [123, 34, 97, 34, 58, 49, 44, 34, 97, 34, 58, 50, 125] [97] =
        (if 2 ≤ ((keyLitOccs [123, 34, 97, 34, 58, 49, 44, 34, 97, 34, 58, 50, 125]).map
              procEsc).count [97]
          then some (((keyLitOccs [123, 34, 97, 34, 58, 49, 44, 34, 97, 34, 58, 50, 125]).map
              procEsc).count [97]) else none) :=
  ⟨by decide,
    dup_count_by_processed_content
      [123, 34, 97, 34, 58, 49, 44, 34, 97, 34, 58, 50, 125] [97] (by decide)⟩

/-! ## Claim theorem: find_duplicates_in_file error conditions (C7) -/

/-- C7: find_duplicates_in_file returns an error exactly when the file is
unreadable, or the scan found no duplicate top-level keys and the text is
not well-formed JSON; in particular a well-formed file without duplicates
is reported Ok. -/
theorem dup_scan_error_iff (content : Option (List Nat)) :
    ((find_duplicates_in_file content).isOk = false ↔
      (content = none ∨
        ∃ s, content = some s ∧ hasDups s = false ∧ jsonWellFormed s = false)) ∧
    (∀ s, content = some s → jsonWellFormed s = true → hasDups s = false →
      (find_duplicates_in_file content).isOk = true) := by
  cases content with
  | none => simp [find_duplicates_in_file, Except.isOk, Except.toBool]
  | some s =>
    by_cases hd : hasDups s
    · simp [find_duplicates_in_file, hd, Except.isOk, Except.toBool]
    · rw [Bool.not_eq_true] at hd
      by_cases hw : jsonWellFormed s
      · simp [find_duplicates_in_file, hd, hw, Except.isOk, Except.toBool]
      · rw [Bool.not_eq_true] at hw
        simp [find_duplicates_in_file, hd, hw, Except.isOk, Except.toBool]

/-- Witness for C7: a well-formed object without duplicate keys is Ok. -/
theorem dup_scan_error_iff_witness :
    (find_duplicates_in_file (some [123, 34, 97, 34, 58, 49, 125])).isOk = true :=
  (dup_scan_error_iff (some [123, 34, 97, 34, 58, 49, 125])).2
    [123, 34, 97, 34, 58, 49, 125] rfl (by decide) (by decide)

/-! ## Claim theorems: the missing-key report (C1) -/

/-- C1 counterexample: for base keys a,b,c,d (in that source order) and
target keys a,c, the list ["d","b"] is a report the hash-set difference
can produce, and it does not list the missing keys in base order.  This
refutes "lists them in the order they appear in B". -/
theorem missing_report_counterexample :
    IsMissingReport ["a", "b", "c", "d"] ["a", "c"] ["d", "b"] ∧
      (["d", "b"] ≠ (["b", "d"] : List String)) := by decide

/-- C1 (amended): every report the missing-key scan can produce
enumerates exactly the base keys absent from the target (each once, in an
unspecified order), and in the spec's example - base keys a,b,c, target
keys a,c - every producible report is exactly ["b"]. -/
theorem missing_report_set (B T out : List String) (h : IsMissingReport B T out) :
    (∀ k, k ∈ out ↔ (k ∈ B ∧ k ∉ T)) ∧
    (∀ out2, IsMissingReport ["a", "b", "c"] ["a", "c"] out2 → out2 = ["b"]) := by
  constructor
  · intro k
    constructor
    · exact fun hk => h.2.1 k hk
    · exact fun hk => h.2.2 k hk.1 hk.2
  · intro out2 h2
    obtain ⟨hnd, hsub, hsup⟩ := h2
    have hb : ("b" : String) ∈ out2 := hsup ("b") (by simp) (by simp)
    have hball : ∀ k ∈ out2, k = ("b" : String) := by
      intro k hk
      obtain ⟨hmem, hnot⟩ := hsub k hk
      simp only [List.mem_cons, List.not_mem_nil, or_false] at hmem hnot
      tauto
    cases out2 with
    | nil => simp at hb
    | cons x t =>
      have hx : x = ("b" : String) := hball x (by simp)
      cases t with
      | nil => simp [hx]
      | cons y t2 =>
        have hy : y = ("b" : String) := hball y (by simp)
        rw [hx, hy] at hnd
        simp at hnd

/-- Witness for C1 (amended) at the spec's instance. -/
theorem missing_report_set_witness :
    IsMissingReport ["a", "b", "c"] ["a", "c"] ["b"] ∧
      ((∀ k, k ∈ (["b"] : List String) ↔
          (k ∈ (["a", "b", "c"] : List String) ∧ k ∉ (["a", "c"] : List String))) ∧
        (∀ out2, IsMissingReport ["a", "b", "c"] ["a", "c"] out2 → out2 = ["b"])) :=
  ⟨by decide, missing_report_set ["a", "b", "c"] ["a", "c"] ["b"] (by decide)⟩

/-! ## Claim theorems: --base resolution (C8) -/

/-- C8 counterexample: --base en.json (no separator) with
--file other/fr.json and working directory locales resolves to
other/en.json, not to locales/en.json.  This refutes "resolved relative
to the working directory ... regardless of whether a single target file
was specified". -/
theorem base_resolution_counterexample :
    resolveBasePath (some ("en.json")) (some ("other/fr.json")) ("locales") =
        ("other/en.json") ∧
      (("other/en.json") : String) ≠ ("locales/en.json") := by decide

/-- C8 (amended): a --base argument without a path separator resolves
against the working directory only when no --file is given; with --file it
resolves against the target file's parent directory; an argument with a
separator is used as given. -/
theorem base_resolution (b f dir : String) (h : hasSepChar b = false) :
    resolveBasePath (some b) none dir = joinPath dir b ∧
    resolveBasePath (some b) (some f) dir = joinPath (parentOr f) b ∧
    (∀ b2 fa, hasSepChar b2 = true → resolveBasePath (some b2) fa dir = b2) := by
  refine ⟨by simp [resolveBasePath, h], by simp [resolveBasePath, h], ?_⟩
  intro b2 fa h2
  simp [resolveBasePath, h2]

/-- Witness for C8 (amended). -/
theorem base_resolution_witness :
    hasSepChar ("en.json") = false ∧
      (resolveBasePath (some ("en.json")) none ("locales") =
          joinPath ("locales") ("en.json") ∧
        resolveBasePath (some ("en.json")) (some ("other/fr.json")) ("locales") =
          joinPath (parentOr ("other/fr.json")) ("en.json") ∧
        (∀ b2 fa, hasSepChar b2 = true →
          resolveBasePath (some b2) fa ("locales") = b2)) :=
  ⟨by decide, base_resolution ("en.json") ("other/fr.json") ("locales") (by decide)⟩

/-! ## Claim theorems: directory-mode missing scan (C2, C5) -/

/-- C2 counterexample: a directory whose en.json parses, with one
unreadable target b.json and one complete target c.json: the batch
completes and the process exits 0, not 2.  This refutes "the process
exits with code 2". -/
theorem dir_missing_exit_counterexample :
    missingDirRun none
        [(("en.json"), some [123, 34, 97, 34, 58, 49, 125]),
          (("b.json"), (none : Option (List Nat))),
          (("c.json"), some [123, 34, 97, 34, 58, 49, 125])] = 0 ∧
      missingDirRun none
        [(("en.json"), some [123, 34, 97, 34, 58, 49, 125]),
          (("b.json"), (none : Option (List Nat))),
          (("c.json"), some [123, 34, 97, 34, 58, 49, 125])] ≠ 2 := by decide

/-- C2 (amended): in directory mode, once the fatal base and en.json
phases pass, per-target failures (unreadable, unparseable, non-object
root) neither abort the batch nor affect the exit code: the run exits 1
exactly when some target file has missing keys and 0 otherwise - never
2. -/
theorem dir_missing_exit (baseArg : Option String)
    (files : List (String × Option (List Nat))) (bk ek : List (List Nat))
    (hb : docKeysOf files (baseArg.getD ("en.json")) = some bk)
    (he : docKeysOf files ("en.json") = some ek) :
    missingDirRun baseArg files =
      (if files.any (fun f =>
          hasJsonExt f.1 && !(f.1 == ("en.json")) && targetHasMissing ek f.2)
        then 1 else 0) ∧
    missingDirRun baseArg files ≠ 2 := by
  constructor
  · unfold missingDirRun
    simp [hb, he]
  · unfold missingDirRun
    simp only [hb, he]
    split <;> simp

/-- Witness for C2 (amended) at the counterexample directory: the
unreadable b.json leaves the exit at 0. -/
theorem dir_missing_exit_witness :
    docKeysOf
        [(("en.json"), some [123, 34, 97, 34, 58, 49, 125]),
          (("b.json"), (none : Option (List Nat))),
          (("c.json"), some [123, 34, 97, 34, 58, 49, 125])]
        ((none : Option String).getD ("en.json")) = some [[97]] ∧
      (missingDirRun none
          [(("en.json"), some [123, 34, 97, 34, 58, 49, 125]),
            (("b.json"), (none : Option (List Nat))),
            (("c.json"), some [123, 34, 97, 34, 58, 49, 125])] =
        (if List.any
            [(("en.json"), some [123, 34, 97, 34, 58, 49, 125]),
              (("b.json"), (none : Option (List Nat))),
              (("c.json"), some [123, 34, 97, 34, 58, 49, 125])]
            (fun f =>
              hasJsonExt f.1 && !(f.1 == ("en.json")) && targetHasMissing [[97]] f.2)
          then 1 else 0) ∧
        missingDirRun none
          [(("en.json"), some [123, 34, 97, 34, 58, 49, 125]),
            (("b.json"), (none : Option (List Nat))),
            (("c.json"), some [123, 34, 97, 34, 58, 49, 125])] ≠ 2) :=
  ⟨by decide,
    dir_missing_exit none
      [(("en.json"), some [123, 34, 97, 34, 58, 49, 125]),
        (("b.json"), (none : Option (List Nat))),
        (("c.json"), some [123, 34, 97, 34, 58, 49, 125])]
      [[97]] [[97]] (by decide) (by decide)⟩

/-- C5: evaluation at the failing input.  With --base fr.json in
directory mode, fr.json's keys are {b} and de.json contains every one of
them, so a comparison against the specified base finds nothing missing in
de.json; against en.json's keys {a} it does.  The run exits 1: the
validated base keys are discarded and every target is compared against
en.json. -/
theorem dir_missing_ignores_base_eval :
    docKeysOf c5Files ("fr.json") = some [[98]] ∧
    targetHasMissing [[98]] (some [123, 34, 98, 34, 58, 49, 125]) = false ∧
    targetHasMissing [[97]] (some [123, 34, 98, 34, 58, 49, 125]) = true ∧
    missingDirRun (some ("fr.json")) c5Files = 1 := by decide

/-! ## Lemmas about swap_remove and the sort loop -/

theorem findIdxA_eq_none {α : Type} (p : α → Bool) :
    (l : List α) → (findIdxA p l = none ↔ ∀ a ∈ l, p a = false)
  | [] => by simp [findIdxA]
  | a :: r => by
    by_cases h : p a
    · simp [findIdxA, h]
    · rw [Bool.not_eq_true] at h
      simp [findIdxA, h, findIdxA_eq_none p r]

theorem findIdxA_split {α : Type} (p : α → Bool) :
    (l : List α) → (i : Nat) → findIdxA p l = some i →
      ∃ pre a post, l = pre ++ a :: post ∧ pre.length = i ∧ p a = true
  | [], i => by simp [findIdxA]
  | a :: r, i => by
    by_cases h : p a
    · intro hi
      simp [findIdxA, h] at hi
      exact ⟨[], a, r, by simp, by simp [← hi], h⟩
    · rw [Bool.not_eq_true] at h
      intro hi
      simp [findIdxA, h] at hi
      obtain ⟨j, hj, hji⟩ := hi
      obtain ⟨pre, b, post, hsplit, hlen, hpb⟩ := findIdxA_split p r j hj
      exact ⟨a :: pre, b, post, by simp [hsplit], by simp [hlen, ← hji], hpb⟩

-- perm of the tail structure
theorem getLast?_perm {α : Type} :
    (r : List α) → (la : α) → r.getLast? = some la → r.Perm (la :: r.dropLast)
  | [], la => by simp
  | [x], la => by
    intro h
    simp at h
    simp [h]
  | x :: y :: r', la => by
    intro h
    rw [List.getLast?_cons_cons] at h
    have ih := getLast?_perm (y :: r') la h
    have h1 : (x :: y :: r').Perm (x :: la :: (y :: r').dropLast) := ih.cons x
    refine h1.trans ?_
    have : (x :: la :: (y :: r').dropLast).Perm (la :: x :: (y :: r').dropLast) :=
      List.Perm.swap la x _
    refine this.trans ?_
    simp [List.dropLast]

theorem set_dropLast_perm {α : Type} :
    (m : List α) → (i : Nat) → (la : α) → i < m.length → m.getLast? = some la →
      ((m.set i la).dropLast).Perm (m.eraseIdx i)
  | [], i, la => by simp
  | x :: r, 0, la => by
    intro hi hl
    cases r with
    | nil =>
      simp at hl
      simp [hl]
    | cons y r' =>
      rw [List.getLast?_cons_cons] at hl
      have hper := getLast?_perm (y :: r') la hl
      have hne : (y :: r') ≠ [] := by simp
      simp only [List.set_cons_zero, List.eraseIdx_cons_zero]
      rw [List.dropLast_cons_of_ne_nil hne]
      exact hper.symm
  | x :: r, i + 1, la => by
    intro hi hl
    cases r with
    | nil => simp at hi
    | cons y r' =>
      rw [List.getLast?_cons_cons] at hl
      have hi' : i < (y :: r').length := by simpa using hi
      have ih := set_dropLast_perm (y :: r') i la hi' hl
      have hne2 : (y :: r').set i la ≠ [] := by
        intro hc
        have := congrArg List.length hc
        simp at this
      simp only [List.set_cons_succ, List.eraseIdx_cons_succ]
      rw [List.dropLast_cons_of_ne_nil hne2]
      exact ih.cons x

-- helpers on splits
theorem getElem?_append_middle {α : Type} :
    (pre : List α) → (a : α) → (post : List α) →
      (pre ++ a :: post)[pre.length]? = some a
  | [], a, post => by simp
  | x :: pre, a, post => by
    simpa using getElem?_append_middle pre a post

theorem eraseIdx_append_middle {α : Type} :
    (pre : List α) → (a : α) → (post : List α) →
      (pre ++ a :: post).eraseIdx pre.length = pre ++ post
  | [], a, post => by simp
  | x :: pre, a, post => by
    simpa using eraseIdx_append_middle pre a post

theorem swapRemove_not_found {V : Type} (k : String) (m : List (String × V))
    (h : ∀ p ∈ m, (p.1 == k) = false) : swapRemove k m = (none, m) := by
  unfold swapRemove
  rw [(findIdxA_eq_none _ m).mpr h]

theorem swapRemove_found {V : Type} (k : String) (m : List (String × V)) (i : Nat)
    (hidx : findIdxA (fun p => p.1 == k) m = some i) :
    ∃ v pre post, m = pre ++ (k, v) :: post ∧
      (swapRemove k m).1 = some v ∧ ((swapRemove k m).2).Perm (pre ++ post) := by
  obtain ⟨pre, a, post, hsplit, hlen, hpa⟩ := findIdxA_split _ m i hidx
  have hak : a.1 = k := by simpa using hpa
  obtain ⟨a1, a2⟩ := a
  simp only at hak
  subst hak
  have hget : m.get? i = some (a1, a2) := by
    rw [List.get?_eq_getElem?, hsplit, ← hlen]
    exact getElem?_append_middle pre (a1, a2) post
  have hne : m ≠ [] := by
    rw [hsplit]
    simp
  have hlast : ∃ la, m.getLast? = some la := by
    cases hml : m.getLast? with
    | none => exact absurd (List.getLast?_eq_none_iff.mp hml) hne
    | some la => exact ⟨la, rfl⟩
  obtain ⟨la, hla⟩ := hlast
  have hilt : i < m.length := by
    have := congrArg List.length hsplit
    simp at this
    omega
  refine ⟨a2, pre, post, hsplit, ?_, ?_⟩
  · unfold swapRemove
    rw [hidx]
    simp only
    rw [hget, hla]
  · unfold swapRemove
    rw [hidx]
    simp only
    rw [hget, hla]
    simp only
    have hp1 := set_dropLast_perm m i la hilt hla
    have he : m.eraseIdx i = pre ++ post := by
      rw [hsplit, ← hlen]
      exact eraseIdx_append_middle pre (a1, a2) post
    rw [he] at hp1
    exact hp1

-- findEntry lemmas
theorem findEntry_key {V : Type} {k : String} {t : List (String × V)} {e}
    (h : findEntry k t = some e) : e.1 = k := by
  have := List.find?_some h
  simpa using this

theorem findEntry_mem {V : Type} {k : String} {t : List (String × V)} {e}
    (h : findEntry k t = some e) : e ∈ t :=
  List.mem_of_find?_eq_some h

theorem findEntry_eq_none_iff {V : Type} (k : String) (t : List (String × V)) :
    findEntry k t = none ↔ ∀ e ∈ t, ¬(e.1 = k) := by
  simp [findEntry, List.find?_eq_none]

theorem findEntry_eq_some_iff {V : Type} (k : String) :
    (t : List (String × V)) → ((t.map Prod.fst).Nodup) → (e : String × V) →
      (findEntry k t = some e ↔ (e ∈ t ∧ e.1 = k))
  | [], _, e => by simp [findEntry]
  | p :: r, ht, e => by
    have ht' := ht
    rw [List.map_cons] at ht'
    rcases List.nodup_cons.mp ht' with ⟨hpr, hr⟩
    constructor
    · intro h
      exact ⟨findEntry_mem h, findEntry_key h⟩
    · intro ⟨hmem, hkey⟩
      by_cases hp : p.1 == k
      · have hpk : p.1 = k := by simpa using hp
        have hep : e = p := by
          rcases List.mem_cons.mp hmem with h | h
          · exact h
          · exfalso
            exact hpr (by
              rw [hpk, ← hkey]
              exact List.mem_map_of_mem Prod.fst h)
        subst hep
        simp [findEntry, List.find?_cons, hp]
      · have hep : e ≠ p := by
          intro hc
          rw [hc] at hkey
          rw [hkey] at hp
          simp at hp
        have hmr : e ∈ r := by
          rcases List.mem_cons.mp hmem with h | h
          · exact absurd h hep
          · exact h
        have := (findEntry_eq_some_iff k r hr e).mpr ⟨hmr, hkey⟩
        rw [Bool.not_eq_true] at hp
        simpa [findEntry, List.find?_cons, hp] using this

theorem keys_nodup_of_perm {V : Type} {s t : List (String × V)} (h : s.Perm t)
    (ht : (t.map Prod.fst).Nodup) : (s.map Prod.fst).Nodup :=
  ((h.map Prod.fst).nodup_iff).mpr ht

theorem findEntry_perm {V : Type} {s t : List (String × V)} (h : s.Perm t)
    (ht : (t.map Prod.fst).Nodup) (k : String) : findEntry k s = findEntry k t := by
  have hs : (s.map Prod.fst).Nodup := keys_nodup_of_perm h ht
  cases hfs : findEntry k s with
  | some e =>
    have hmem : e ∈ t := h.mem_iff.mp (findEntry_mem hfs)
    exact ((findEntry_eq_some_iff k t ht e).mpr ⟨hmem, findEntry_key hfs⟩).symm
  | none =>
    cases hft : findEntry k t with
    | none => rfl
    | some e =>
      have hmem : e ∈ s := h.mem_iff.mpr (findEntry_mem hft)
      have := (findEntry_eq_some_iff k s hs e).mpr ⟨hmem, findEntry_key hft⟩
      rw [hfs] at this
      exact absurd this (by simp)

theorem keys_nodup_split {V : Type} {t pre post : List (String × V)} {k : String} {v : V}
    (hsplit : t = pre ++ (k, v) :: post) (ht : (t.map Prod.fst).Nodup) :
    ((pre ++ post).map Prod.fst).Nodup ∧ k ∉ (pre ++ post).map Prod.fst := by
  subst hsplit
  rw [List.map_append, List.map_cons] at ht
  rcases List.nodup_append.mp ht with ⟨h1, h2, h3⟩
  rcases List.nodup_cons.mp h2 with ⟨h4, h5⟩
  rw [List.map_append]
  constructor
  · exact List.nodup_append.mpr ⟨h1, h5, fun a ha hb => h3 ha (List.mem_cons_of_mem _ hb)⟩
  · rw [List.mem_append]
    rintro (hc | hc)
    · exact h3 hc (List.mem_cons_self _ _)
    · exact h4 hc

theorem findEntry_middle {V : Type} (q k : String) (v : V) (hqk : q ≠ k) :
    (pre post : List (String × V)) →
      findEntry q (pre ++ (k, v) :: post) = findEntry q (pre ++ post)
  | [], post => by
    have : ((k, v).1 == q) = false := by
      simp only
      rw [beq_eq_false_iff_ne]
      exact fun h => hqk h.symm
    simp [findEntry, List.find?_cons, this]
  | x :: pre, post => by
    by_cases hx : x.1 == q
    · simp [findEntry, List.find?_cons, hx]
    · rw [Bool.not_eq_true] at hx
      have := findEntry_middle q k v hqk pre post
      simpa [findEntry, List.find?_cons, hx] using this

theorem sortGo_first {V : Type} :
    (base : List String) → (t : List (String × V)) →
      (t.map Prod.fst).Nodup → base.Nodup →
      (sortGo base t).1 = base.filterMap (fun q => findEntry q t)
  | [], t => by
    intro _ _
    simp [sortGo]
  | k :: ks, t => by
    intro ht hb
    rcases List.nodup_cons.mp hb with ⟨hknks, hks⟩
    cases hidx : findIdxA (fun p => p.1 == k) t with
    | none =>
      have hsw : swapRemove k t = (none, t) := by
        unfold swapRemove
        rw [hidx]
      have hfe : findEntry k t = none := by
        rw [findEntry_eq_none_iff]
        intro e he hc
        have := (findIdxA_eq_none _ t).mp hidx e he
        rw [hc] at this
        simp at this
      simp only [sortGo]
      rw [hsw]
      simp only
      rw [List.filterMap_cons, hfe]
      exact sortGo_first ks t ht hks
    | some i =>
      obtain ⟨v, pre, post, hsplit, h1, h2⟩ := swapRemove_found k t i hidx
      have hsw : swapRemove k t = (some v, (swapRemove k t).2) := Prod.ext h1 rfl
      have hkeyspp := keys_nodup_split hsplit ht
      have ht2 : (((swapRemove k t).2).map Prod.fst).Nodup :=
        keys_nodup_of_perm h2 hkeyspp.1
      have hfe : findEntry k t = some (k, v) := by
        refine (findEntry_eq_some_iff k t ht (k, v)).mpr ⟨?_, rfl⟩
        rw [hsplit]
        exact List.mem_append.mpr (Or.inr (List.mem_cons_self _ _))
      simp only [sortGo]
      rw [hsw]
      simp only
      rw [List.filterMap_cons, hfe]
      congr 1
      rw [sortGo_first ks ((swapRemove k t).2) ht2 hks]
      apply List.filterMap_congr
      intro q hq
      have hqk : q ≠ k := fun hc => hknks (hc ▸ hq)
      calc findEntry q ((swapRemove k t).2)
          = findEntry q (pre ++ post) := findEntry_perm h2 hkeyspp.1 q
        _ = findEntry q (pre ++ (k, v) :: post) :=
            (findEntry_middle q k v hqk pre post).symm
        _ = findEntry q t := by rw [← hsplit]

theorem sortGo_rest {V : Type} :
    (base : List String) → (t : List (String × V)) → (t.map Prod.fst).Nodup →
      ((sortGo base t).2).Perm (t.filter (fun p => !(base.contains p.1)))
  | [], t => by
    intro _
    simp [sortGo]
  | k :: ks, t => by
    intro ht
    cases hidx : findIdxA (fun p => p.1 == k) t with
    | none =>
      have hsw : swapRemove k t = (none, t) := by
        unfold swapRemove
        rw [hidx]
      have hall := (findIdxA_eq_none _ t).mp hidx
      simp only [sortGo]
      rw [hsw]
      simp only
      have hfc : t.filter (fun p => !((k :: ks).contains p.1)) =
          t.filter (fun p => !(ks.contains p.1)) := by
        apply List.filter_congr
        intro p hp
        have hpk := hall p hp
        rw [List.contains_cons, hpk, Bool.false_or]
      rw [hfc]
      exact sortGo_rest ks t ht
    | some i =>
      obtain ⟨v, pre, post, hsplit, h1, h2⟩ := swapRemove_found k t i hidx
      have hsw : swapRemove k t = (some v, (swapRemove k t).2) := Prod.ext h1 rfl
      have hkeyspp := keys_nodup_split hsplit ht
      have ht2 : (((swapRemove k t).2).map Prod.fst).Nodup :=
        keys_nodup_of_perm h2 hkeyspp.1
      simp only [sortGo]
      rw [hsw]
      simp only
      refine (sortGo_rest ks ((swapRemove k t).2) ht2).trans ?_
      refine (h2.filter _).trans ?_
      have hstep2 : (pre ++ post).filter (fun p => !(ks.contains p.1)) =
          (pre ++ post).filter (fun p => !((k :: ks).contains p.1)) := by
        apply List.filter_congr
        intro p hp
        have hpk : ¬(p.1 = k) := by
          intro hc
          exact hkeyspp.2 (hc ▸ List.mem_map_of_mem Prod.fst hp)
        have hbq : (p.1 == k) = false := beq_eq_false_iff_ne.mpr hpk
        rw [List.contains_cons, hbq, Bool.false_or]
      have hcons : List.filter (fun p => !((k :: ks).contains p.1)) ((k, v) :: post) =
          List.filter (fun p => !((k :: ks).contains p.1)) post := by
        rw [List.filter_cons]
        have hkk : (!((k :: ks).contains (k, v).1)) = false := by
          rw [List.contains_cons]
          simp
        simp [hkk]
      rw [hstep2, hsplit, List.filter_append, List.filter_append, hcons]

theorem sortGo_self_perm {V : Type} :
    (base : List String) → (t : List (String × V)) →
      ((sortGo base t).1 ++ (sortGo base t).2).Perm t
  | [], t => by simp [sortGo]
  | k :: ks, t => by
    cases hidx : findIdxA (fun p => p.1 == k) t with
    | none =>
      have hsw : swapRemove k t = (none, t) := by
        unfold swapRemove
        rw [hidx]
      simp only [sortGo]
      rw [hsw]
      simp only
      exact sortGo_self_perm ks t
    | some i =>
      obtain ⟨v, pre, post, hsplit, h1, h2⟩ := swapRemove_found k t i hidx
      have hsw : swapRemove k t = (some v, (swapRemove k t).2) := Prod.ext h1 rfl
      simp only [sortGo]
      rw [hsw]
      simp only
      rw [List.cons_append]
      have hih : ((sortGo ks ((swapRemove k t).2)).1 ++
          (sortGo ks ((swapRemove k t).2)).2).Perm (pre ++ post) :=
        (sortGo_self_perm ks ((swapRemove k t).2)).trans h2
      refine (hih.cons (k, v)).trans ?_
      rw [hsplit]
      exact List.perm_middle.symm


/-! ## Claim theorems: the key-order sorter (C3, C4) -/

/-- Claim C3 counterexample: sorting the target with entries z:1, y:2, a:3
against base key order [a] carries a to the front, but the removal of a
swaps the last entry z into its slot, so the extras come out as z,y - not
in ascending lexicographic order y,z.  This refutes "target keys absent
from the base [are emitted] in ascending lexicographic order". -/
theorem sort_spec_counterexample :
    sortTarget ["a"] [(("z"), 1), (("y"), 2), (("a"), 3)] =
        [(("a"), 3), (("z"), 1), (("y"), 2)] ∧
      sortTargetSpec ["a"] [(("z"), 1), (("y"), 2), (("a"), 3)] =
        [(("a"), 3), (("y"), 2), (("z"), 1)] ∧
      sortTarget ["a"] [(("z"), 1), (("y"), 2), (("a"), 3)] ≠
        sortTargetSpec ["a"] [(("z"), 1), (("y"), 2), (("a"), 3)] := by decide

/-- Claim C3 (amended): for a base with distinct keys and a target object
(distinct keys), the sorted document is the base-ordered entries found in
the target - keys present in the base first, in base order, values carried
unchanged, base keys absent from the target omitted - followed by exactly
the target entries whose keys are not in the base, as a permutation in the
order the swap-removals leave behind (not necessarily lexicographic). -/
theorem sort_shape {V : Type} (base : List String) (t : List (String × V))
    (hb : base.Nodup) (ht : (t.map Prod.fst).Nodup) :
    sortTarget base t =
      base.filterMap (fun q => findEntry q t) ++ (sortGo base t).2 ∧
    ((sortGo base t).2).Perm (t.filter (fun p => !(base.contains p.1))) := by
  refine ⟨?_, sortGo_rest base t ht⟩
  unfold sortTarget
  rw [sortGo_first base t ht hb]

/-- Witness for C3 (amended) at the spec's example: base order [a,b,c],
target with entries c:1, a:2, x:3. -/
theorem sort_shape_witness :
    (["a", "b", "c"] : List String).Nodup ∧
      (([(("c"), 1), (("a"), 2), (("x"), 3)] : List (String × Nat)).map Prod.fst).Nodup ∧
      (sortTarget ["a", "b", "c"] [(("c"), 1), (("a"), 2), (("x"), 3)] =
          List.filterMap (fun q => findEntry q [(("c"), 1), (("a"), 2), (("x"), 3)])
              ["a", "b", "c"] ++
            (sortGo ["a", "b", "c"] [(("c"), 1), (("a"), 2), (("x"), 3)]).2 ∧
        ((sortGo ["a", "b", "c"] [(("c"), 1), (("a"), 2), (("x"), 3)]).2).Perm
          (List.filter (fun p => !(["a", "b", "c"].contains p.1))
            [(("c"), 1), (("a"), 2), (("x"), 3)])) :=
  ⟨by decide, by decide,
    sort_shape ["a", "b", "c"] [(("c"), 1), (("a"), 2), (("x"), 3)]
      (by decide) (by decide)⟩

/-- Claim C4 counterexample: base key order [b], target with entries b:1,
y:2, z:3.  The first sort swap-removes b and moves z in front of y; the
second sort swap-removes b again and swaps them back: the two outputs
differ, so sort is not idempotent and the outputs alternate.  This
refutes "applying sort to the output of sort produces the identical
output". -/
theorem sort_idempotent_counterexample :
    sortTarget ["b"] [(("b"), 1), (("y"), 2), (("z"), 3)] =
        [(("b"), 1), (("z"), 3), (("y"), 2)] ∧
      sortTarget ["b"] (sortTarget ["b"] [(("b"), 1), (("y"), 2), (("z"), 3)]) =
        [(("b"), 1), (("y"), 2), (("z"), 3)] ∧
      sortTarget ["b"] (sortTarget ["b"] [(("b"), 1), (("y"), 2), (("z"), 3)]) ≠
        sortTarget ["b"] [(("b"), 1), (("y"), 2), (("z"), 3)] := by decide

/-- Claim C4 (amended): sort is idempotent whenever at most one target key
lies outside the base (in particular when every target key is in the
base); with two or more extra keys a re-sort may permute them. -/
theorem sort_idempotent_of_extras_le_one {V : Type} (base : List String)
    (t : List (String × V)) (hb : base.Nodup) (ht : (t.map Prod.fst).Nodup)
    (hlen : (t.filter (fun p => !(base.contains p.1))).length ≤ 1) :
    sortTarget base (sortTarget base t) = sortTarget base t := by
  have hds : sortTarget base t = (sortGo base t).1 ++ (sortGo base t).2 := rfl
  have hperm : (sortTarget base t).Perm t := by
    rw [hds]
    exact sortGo_self_perm base t
  have hks1 : ((sortTarget base t).map Prod.fst).Nodup := keys_nodup_of_perm hperm ht
  have hfirst : (sortGo base (sortTarget base t)).1 = (sortGo base t).1 := by
    rw [sortGo_first base (sortTarget base t) hks1 hb, sortGo_first base t ht hb]
    apply List.filterMap_congr
    intro q _
    exact findEntry_perm hperm ht q
  have hfsplit : (sortTarget base t).filter (fun p => !(base.contains p.1)) =
      (sortGo base t).2 := by
    rw [hds, List.filter_append]
    have hf1 : ((sortGo base t).1).filter (fun p => !(base.contains p.1)) = [] := by
      rw [List.filter_eq_nil_iff]
      intro p hp
      rw [sortGo_first base t ht hb] at hp
      obtain ⟨q, hq, hfq⟩ := List.mem_filterMap.mp hp
      have hpq : p.1 = q := findEntry_key hfq
      have hmem : base.contains p.1 = true := by
        rw [hpq]
        exact List.elem_eq_true_of_mem hq
      rw [hmem]
      simp
    have hf2 : ((sortGo base t).2).filter (fun p => !(base.contains p.1)) =
        (sortGo base t).2 := by
      rw [List.filter_eq_self]
      intro p hp
      have hmem := (sortGo_rest base t ht).mem_iff.mp hp
      exact (List.mem_filter.mp hmem).2
    rw [hf1, hf2, List.nil_append]
  have hrest2 : ((sortGo base (sortTarget base t)).2).Perm ((sortGo base t).2) := by
    have h1 := sortGo_rest base (sortTarget base t) hks1
    rw [hfsplit] at h1
    exact h1
  have hlen2 : ((sortGo base t).2).length ≤ 1 := by
    rw [(sortGo_rest base t ht).length_eq]
    exact hlen
  have heq2 : (sortGo base (sortTarget base t)).2 = (sortGo base t).2 := by
    cases h2 : (sortGo base t).2 with
    | nil =>
      rw [h2] at hrest2
      exact hrest2.eq_nil
    | cons x l2 =>
      rw [h2] at hrest2 hlen2
      cases l2 with
      | nil => exact List.perm_singleton.mp hrest2
      | cons y l3 => simp at hlen2
  calc sortTarget base (sortTarget base t)
      = (sortGo base (sortTarget base t)).1 ++ (sortGo base (sortTarget base t)).2 := rfl
    _ = (sortGo base t).1 ++ (sortGo base t).2 := by rw [hfirst, heq2]
    _ = sortTarget base t := rfl

/-- Witness for C4 (amended) at the spec's example, where the single extra
key is x. -/
theorem sort_idempotent_witness :
    (["a", "b", "c"] : List String).Nodup ∧
      (([(("c"), 1), (("a"), 2), (("x"), 3)] : List (String × Nat)).map Prod.fst).Nodup ∧
      (List.filter (fun p => !(["a", "b", "c"].contains p.1))
          [(("c"), 1), (("a"), 2), (("x"), 3)]).length ≤ 1 ∧
      sortTarget ["a", "b", "c"]
          (sortTarget ["a", "b", "c"] [(("c"), 1), (("a"), 2), (("x"), 3)]) =
        sortTarget ["a", "b", "c"] [(("c"), 1), (("a"), 2), (("x"), 3)] :=
  ⟨by decide, by decide, by decide,
    sort_idempotent_of_extras_le_one ["a", "b", "c"]
      [(("c"), 1), (("a"), 2), (("x"), 3)] (by decide) (by decide) (by decide)⟩

end I18nAudit
